import Mathlib

/-!
Verification development for the Samruddhi pipe-cutting planner (`app.py`, `db.py`).

Modelling conventions:
* All lengths are exact integers counting hundredths of a millimetre
  (so 3600 mm = 360000).  The source rounds every stored value to two
  decimal places (`round(x, 2)`) at each arithmetic step, hence every
  run-time value of the Python program lies exactly on this grid; binary
  floating-point representation error is not modelled.  On this grid the
  source's `round(x, 2)` is the identity, kept here as `round2` so every
  rounding site of the source remains visible.
* The per-cut kerf loss is the fixed configuration constant `KERF_MM`
  (3 mm) in the source; the algorithm bodies are additionally stated over
  an arbitrary kerf parameter `k`, instantiated with `KERF_MM` by the
  top-level entry points, mirroring the spec's description of kerf as an
  externally supplied configuration constant.
* The SQLite/Turso leftover store of `db.py` is modelled as `Store`:
  a list of `{id, length}` rows plus the AUTOINCREMENT counter.
-/

namespace Samruddhi

/-- `STANDARD_RAW_LENGTH_MM = 3600.0` (app.py line 17), in hundredths of a mm. -/
def STANDARD_RAW_LENGTH_MM : ℤ := 360000

/-- `KERF_MM = 3.0` (app.py line 20): fixed waste per physical cut. -/
def KERF_MM : ℤ := 300

/-- `SCRAP_SAVE_THRESHOLD_MM = 100.0` (app.py line 23). -/
def SCRAP_SAVE_THRESHOLD_MM : ℤ := 10000

/-- `SCRAP_USABLE_MIN_MM = 350.0` (app.py line 33). -/
def SCRAP_USABLE_MIN_MM : ℤ := 35000

/-- `LAST_PIPE_SCRAP_MAX_MM = 75.0` (app.py line 37). -/
def LAST_PIPE_SCRAP_MAX_MM : ℤ := 7500

/-- The source's `round(x, 2)`.  On the hundredths-of-a-mm grid used here,
rounding to two decimal places is the identity; the definition is kept so
that every rounding site of the source remains visible in the embedding. -/
def round2 (x : ℤ) : ℤ := x

/-- Round-half-even of `x` hundredths to whole units, as Python's
`"{:.0f}".format` does when building the leftover pipe label. -/
def rheWhole (x : ℤ) : ℤ :=
  let k := x.fdiv 100
  let r := x - 100 * k
  if r < 50 then k
  else if 50 < r then k + 1
  else if k % 2 = 0 then k else k + 1

/-- Two-digit zero padding for the fractional part of a formatted length. -/
def pad2 (r : ℕ) : String :=
  (if r < 10 then "0" else "") ++ toString r

/-- Python's `"{:.2f}".format` on a value of `x` hundredths (exact on this
grid; float-formatting tie behaviour is not modelled). -/
def fmt2 (x : ℤ) : String :=
  if x < 0 then "-" ++ (toString ((-x).toNat / 100) ++ "." ++ pad2 ((-x).toNat % 100))
  else toString (x.toNat / 100) ++ "." ++ pad2 (x.toNat % 100)

/-- Python's `"{:.0f}".format` on a value of `x` hundredths. -/
def fmt0 (x : ℤ) : String := toString (rheWhole x)

/-- `classify_scrap_mm` (app.py lines 40-51). -/
def classify_scrap_mm (scrap_mm : ℤ) : String :=
  if SCRAP_USABLE_MIN_MM ≤ scrap_mm then "USABLE" else "NOT USABLE"

/-- `String.startsWith`, via the character list (the source's
`segments[-1]["source"].startswith("Raw pipe")`). -/
def strStartsWith (s pre : String) : Bool :=
  List.isPrefixOf pre.data s.data

/-! ## Leftover store (`db.py`) -/

/-- One row of the `leftovers` table: `{id, length}`. -/
structure LeftoverRecord where
  id : ℕ
  length : ℤ
deriving DecidableEq, Repr

/-- The `leftovers` table plus its AUTOINCREMENT counter. -/
structure Store where
  rows : List LeftoverRecord
  next_id : ℕ
deriving DecidableEq, Repr

/-- Ordering used by `get_leftovers_sorted`: length descending. -/
def byLengthDesc (a b : LeftoverRecord) : Prop := b.length ≤ a.length

instance : DecidableRel byLengthDesc := fun a b => Int.decLe b.length a.length

/-- `get_leftovers_sorted` (db.py): `SELECT id, length FROM leftovers ORDER BY
length DESC`.  Tie order among equal lengths is unspecified by SQLite; a
stable sort is used here. -/
def get_leftovers_sorted (st : Store) : List LeftoverRecord :=
  st.rows.insertionSort byLengthDesc

/-- `delete_leftover` (db.py): `DELETE FROM leftovers WHERE id = ?`. -/
def delete_leftover (st : Store) (lid : ℕ) : Store :=
  { st with rows := st.rows.filter (fun r => decide (r.id ≠ lid)) }

/-- `insert_leftover` (db.py): inserts `round(length, 2)` with a fresh
AUTOINCREMENT id. -/
def insert_leftover (st : Store) (length : ℤ) : Store :=
  { rows := st.rows ++ [⟨st.next_id, round2 length⟩], next_id := st.next_id + 1 }

/-- `delete_leftovers_batch` (db.py): `DELETE ... WHERE id IN (...)`; a no-op
for the empty list (the filter keeps every row). -/
def delete_leftovers_batch (st : Store) (ids : List ℕ) : Store :=
  { st with rows := st.rows.filter (fun r => decide (r.id ∉ ids)) }

/-- `insert_leftovers_batch` (db.py): one insert per length, in order. -/
def insert_leftovers_batch (st : Store) (lengths : List ℤ) : Store :=
  lengths.foldl insert_leftover st

/-! ## Multi-size packer (`run_multi_size_plan`, app.py lines 63-238) -/

/-- Internal working pipe of the packer (app.py lines 96-107 and 143-149). -/
structure Pipe where
  remaining : ℤ
  cuts : List ℤ
  is_leftover : Bool
  leftover_id : Option ℕ
  capacity : ℤ
deriving DecidableEq, Repr

/-- `_is_remaining_usable` (app.py lines 91-92). -/
def isRemainingUsable (remaining : ℤ) : Bool :=
  decide (SCRAP_USABLE_MIN_MM ≤ remaining)

/-- Pairs each list element with its position (the index a Python loop over
`pipes` implicitly carries via object identity). -/
def enumIdxFrom : ℕ → List α → List (ℕ × α)
  | _, [] => []
  | n, a :: l => (n, a) :: enumIdxFrom (n + 1) l

def enumIdx (l : List α) : List (ℕ × α) := enumIdxFrom 0 l

/-- One iteration of the best-fit search loop (app.py lines 120-136): skip a
pipe that cannot take the cut, skip a raw pipe the future-usability guard
blocks, otherwise keep the candidate with the strictly smallest remainder
after the cut (first wins on ties). -/
def stepCB (needed : ℤ) (acc : Option (ℕ × ℤ)) (ip : ℕ × Pipe) : Option (ℕ × ℤ) :=
  if ip.2.remaining < needed then acc
  else
    let rem_after := ip.2.remaining - needed
    if ip.2.is_leftover = false ∧ ip.2.cuts ≠ [] ∧
        isRemainingUsable ip.2.remaining = true ∧ isRemainingUsable rem_after = false then
      acc
    else
      match acc with
      | none => some (ip.1, rem_after)
      | some best => if rem_after < best.2 then some (ip.1, rem_after) else acc

/-- `candidates` (app.py line 115): the pipes, with their positions, whose
remaining length can take the cut plus kerf. -/
def cbCandidates (k : ℤ) (pipes : List Pipe) (cut : ℤ) : List (ℕ × Pipe) :=
  (enumIdx pipes).filter (fun ip => decide (cut + k ≤ ip.2.remaining))

/-- `leftover_candidates` (app.py line 116). -/
def cbLeftoverCandidates (k : ℤ) (pipes : List Pipe) (cut : ℤ) : List (ℕ × Pipe) :=
  (cbCandidates k pipes cut).filter (fun ip => ip.2.is_leftover)

/-- `search_list` (app.py line 118): leftover candidates when any exists,
otherwise all candidates. -/
def cbSearchList (k : ℤ) (pipes : List Pipe) (cut : ℤ) : List (ℕ × Pipe) :=
  if (cbLeftoverCandidates k pipes cut).isEmpty then cbCandidates k pipes cut
  else cbLeftoverCandidates k pipes cut

/-- The candidate selection of one placement (app.py lines 111-136).
Returns the chosen pipe's index in `pipes` and the remainder it would be
left with, or `none` when a new raw pipe must be opened. -/
def chooseBest (k : ℤ) (pipes : List Pipe) (cut : ℤ) : Option (ℕ × ℤ) :=
  (cbSearchList k pipes cut).foldl (stepCB (cut + k)) none

/-- The reasons the best-fit loop passes over a pipe: it cannot physically
take the cut, or the future-usability guard blocks it (raw, already cut,
and the placement would drop its remainder below the usability threshold). -/
def SkipPipe (needed : ℤ) (p : Pipe) : Prop :=
  p.remaining < needed ∨
    (p.is_leftover = false ∧ p.cuts ≠ [] ∧ isRemainingUsable p.remaining = true ∧
     isRemainingUsable (p.remaining - needed) = false)

/-- The fresh raw pipe opened when nothing fits (app.py lines 142-149). -/
def freshPipe (k cut : ℤ) : Pipe :=
  { remaining := round2 (STANDARD_RAW_LENGTH_MM - (cut + k)), cuts := [cut],
    is_leftover := false, leftover_id := none, capacity := STANDARD_RAW_LENGTH_MM }

/-- Placement of one cut (app.py lines 110-149): mutate the chosen pipe in
place, or append a fresh raw pipe. -/
def placeCut (k : ℤ) (pipes : List Pipe) (cut : ℤ) : List Pipe :=
  match chooseBest k pipes cut with
  | some ira =>
      (enumIdx pipes).map (fun jp =>
        if jp.1 = ira.1 then
          { jp.2 with cuts := jp.2.cuts ++ [cut], remaining := round2 ira.2 }
        else jp.2)
  | none => pipes ++ [freshPipe k cut]

/-- The full placement pass (app.py line 110: `for cut in flat`). -/
def placeAll (k : ℤ) (pipes : List Pipe) (flat : List ℤ) : List Pipe :=
  flat.foldl (placeCut k) pipes

/-- Descending order used for the flattened cut list (FFD). -/
def intDesc (a b : ℤ) : Prop := b ≤ a

instance : DecidableRel intDesc := fun a b => Int.decLe b a

/-- Ascending order used for `sorted(last["cuts"])`. -/
def intAsc (a b : ℤ) : Prop := a ≤ b

instance : DecidableRel intAsc := fun a b => Int.decLe a b

/-- Expansion and FFD sort of the requirements (app.py lines 77-84): drop
non-positive lengths/quantities, repeat each length by its quantity, sort
descending. -/
def flattenReqs (reqs : List (ℤ × ℤ)) : List ℤ :=
  (reqs.foldl (fun acc pr =>
      let L := round2 pr.1
      if L ≤ 0 ∨ pr.2 ≤ 0 then acc
      else acc ++ List.replicate pr.2.toNat L) []).insertionSort intDesc

/-- Seeding of one pipe per positive-length leftover (app.py lines 96-107). -/
def seedPipes (leftovers : List LeftoverRecord) : List Pipe :=
  leftovers.foldl (fun acc row =>
    let length_mm := round2 row.length
    if length_mm ≤ 0 then acc
    else acc ++ [{ remaining := length_mm, cuts := [], is_leftover := true,
                   leftover_id := some row.id, capacity := length_mm }]) []

/-- The remainder the last pipe would keep after removing its `i` smallest
cuts (app.py lines 159-164): the capacity itself when nothing is kept. -/
def remAfterRemoval (k cap : ℤ) (cuts_sorted : List ℤ) (i : ℕ) : ℤ :=
  let kept := cuts_sorted.drop i
  if kept.isEmpty then cap
  else cap - (kept.sum + k * kept.length)

/-- The `move_count` search (app.py lines 157-167): the first `i` in
`1..len(cuts)` whose removal leaves the last pipe within the scrap limit,
`0` when no such `i` exists. -/
def findMoveCount (k cap : ℤ) (cuts_sorted : List ℤ) : ℕ :=
  match (List.range' 1 cuts_sorted.length).find?
      (fun i => decide (remAfterRemoval k cap cuts_sorted i ≤ LAST_PIPE_SCRAP_MAX_MM)) with
  | some i => i
  | none => 0

/-- First-fit insertion into the repack pipes (app.py lines 178-183):
`some` with the updated list if a pipe took the cut, `none` otherwise. -/
def firstFitInsert (k c : ℤ) : List Pipe → Option (List Pipe)
  | [] => none
  | np :: rest =>
      if c + k ≤ np.remaining then
        some ({ np with cuts := np.cuts ++ [c]
                        remaining := round2 (np.remaining - (c + k)) } :: rest)
      else (firstFitInsert k c rest).map (np :: ·)

/-- One step of the repack of moved cuts (app.py lines 175-191). -/
def firstFitPlace (k : ℤ) (acc : List Pipe) (c : ℤ) : List Pipe :=
  match firstFitInsert k c acc with
  | some l => l
  | none => acc ++ [freshPipe k c]

/-- Repack of the moved cuts into new raw pipes, taken in descending order
(app.py line 175: `for c in reversed(moved_cuts)`). -/
def packMoved (k : ℤ) (moved : List ℤ) : List Pipe :=
  moved.reverse.foldl (firstFitPlace k) []

/-- The last-pipe scrap-limit fixup (app.py lines 151-192). -/
def fixupStage (k : ℤ) (pipes : List Pipe) : List Pipe :=
  match pipes.getLast? with
  | none => pipes
  | some last =>
      if LAST_PIPE_SCRAP_MAX_MM < last.remaining ∧ last.cuts ≠ [] then
        let cuts_sorted := last.cuts.insertionSort intAsc
        let move_count := findMoveCount k last.capacity cuts_sorted
        if 0 < move_count then
          let moved_cuts := cuts_sorted.take move_count
          let kept := cuts_sorted.drop move_count
          let last_used : ℤ := if kept ≠ [] then kept.sum + k * kept.length else 0
          let last2 := { last with cuts := kept
                                   remaining := round2 (last.capacity - last_used) }
          pipes.dropLast ++ (if last2.cuts ≠ [] then [last2] else []) ++ packMoved k moved_cuts
        else pipes
      else pipes

/-- Removal of raw pipes that received no cut (app.py line 194); leftover
pipes are kept even with zero cuts. -/
def dropEmptyRaw (pipes : List Pipe) : List Pipe :=
  pipes.filter (fun p => !p.cuts.isEmpty || p.is_leftover)

/-- The internal pipe list of one multi-size run, before report building. -/
def multiPipes (k : ℤ) (reqs : List (ℤ × ℤ)) (leftovers : List LeftoverRecord) : List Pipe :=
  dropEmptyRaw (fixupStage k (placeAll k (seedPipes leftovers) (flattenReqs reqs)))

/-- One row of the multi-size report (app.py lines 217-228). -/
structure OutPipe where
  pipe_number : ℕ
  pipe_label : String
  cuts : List ℤ
  num_cuts : ℕ
  kerf_mm : ℤ
  used : ℤ
  scrap : ℤ
  scrap_class : String
  is_leftover : Bool
  leftover_id : Option ℕ
deriving DecidableEq, Repr

/-- The multi-size plan result (app.py lines 230-238; the two empty-input
returns of lines 74 and 87 carry no `raw_length` key, modelled as `none`). -/
structure MultiResult where
  pipes : List OutPipe
  total_pipes : ℕ
  total_used : ℤ
  total_scrap : ℤ
  total_kerf : ℤ
  raw_length : Option ℤ
  last_pipe_over_limit : Bool
deriving DecidableEq, Repr

/-- app.py lines 74 and 87: the empty multi-size plan. -/
def emptyMultiResult : MultiResult :=
  { pipes := [], total_pipes := 0, total_used := 0, total_scrap := 0,
    total_kerf := 0, raw_length := none, last_pipe_over_limit := false }

/-- One output entry (app.py lines 202-228). -/
def mkOutPipe (k : ℤ) (i : ℕ) (p : Pipe) : OutPipe :=
  let num_cuts := p.cuts.length
  let pieces_only := round2 p.cuts.sum
  let kerf_mm := round2 (k * num_cuts)
  let used := round2 (pieces_only + kerf_mm)
  let scrap := round2 p.remaining
  { pipe_number := i + 1,
    pipe_label := if p.is_leftover then "Leftover " ++ fmt0 p.capacity ++ " mm"
                  else "Raw pipe (3600 mm)",
    cuts := p.cuts, num_cuts := num_cuts, kerf_mm := kerf_mm, used := used,
    scrap := scrap, scrap_class := classify_scrap_mm scrap,
    is_leftover := p.is_leftover, leftover_id := p.leftover_id }

/-- Report building (app.py lines 196-238).  The over-limit flag is set by
the loop exactly when the final entry's scrap exceeds the limit. -/
def buildOutput (k : ℤ) (pipes : List Pipe) : MultiResult :=
  let out := (enumIdx pipes).map (fun ip => mkOutPipe k ip.1 ip.2)
  { pipes := out,
    total_pipes := out.length,
    total_used := round2 (out.map OutPipe.used).sum,
    total_scrap := round2 (out.map OutPipe.scrap).sum,
    total_kerf := round2 (out.map OutPipe.kerf_mm).sum,
    raw_length := some STANDARD_RAW_LENGTH_MM,
    last_pipe_over_limit :=
      match out.getLast? with
      | some op => decide (LAST_PIPE_SCRAP_MAX_MM < op.scrap)
      | none => false }

/-- `run_multi_size_plan` over an arbitrary kerf parameter. -/
def run_multi_size_plan_kerf (k : ℤ) (cut_requirements : List (ℤ × ℤ))
    (leftovers : List LeftoverRecord) : MultiResult :=
  if cut_requirements.isEmpty then emptyMultiResult
  else if (flattenReqs cut_requirements).isEmpty then emptyMultiResult
  else buildOutput k (multiPipes k cut_requirements leftovers)

/-- `run_multi_size_plan` (app.py lines 63-238), with the source's fixed
kerf `KERF_MM`. -/
def run_multi_size_plan (cut_requirements : List (ℤ × ℤ))
    (leftovers : List LeftoverRecord) : MultiResult :=
  run_multi_size_plan_kerf KERF_MM cut_requirements leftovers

/-! ## Single-size allocator (`run_cutting_plan`, app.py lines 241-355) -/

/-- One output segment (app.py lines 297-303). -/
structure Segment where
  source : String
  source_length : ℤ
  pieces : ℕ
  cut_length : ℤ
  remaining : ℤ
deriving DecidableEq, Repr

/-- What `next_source` (app.py lines 274-282) returns, plus how far it
advanced the leftover cursor. -/
structure SourceInfo where
  length : ℤ
  lid : Option ℕ
  label : String
  consumed : ℕ
deriving Repr

/-- `next_source` on the leftovers not yet examined: the first one that can
hold at least one cut (skipped ones are never revisited), else one fresh raw
pipe of the caller-given length. -/
def nextSourceAux (raw needed : ℤ) : List LeftoverRecord → SourceInfo
  | [] => { length := raw, lid := none,
            label := "Raw pipe (" ++ fmt2 raw ++ " mm)", consumed := 0 }
  | r :: rest =>
      if needed ≤ r.length then
        { length := r.length, lid := some r.id,
          label := "Leftover (" ++ fmt2 r.length ++ " mm)", consumed := 1 }
      else
        let s := nextSourceAux raw needed rest
        { s with consumed := s.consumed + 1 }

/-- The mutable state of the `while` loop of app.py lines 287-313. -/
structure LoopState where
  quantity : ℕ
  idx : ℕ
  available : ℤ
  pieces : ℕ
  src_init : ℤ
  src_label : String
  src_id : Option ℕ
  segments : List Segment
  scraps : List ℤ
  used_ids : List ℕ
  used_leftover : Bool
  done : Bool

/-- The `else` branch of the loop (app.py lines 293-313): close the current
segment, queue its scrap and the consumed leftover id, advance to the next
source, and set the break flag when the new source cannot take a cut. -/
def closeAdvance (leftovers : List LeftoverRecord) (raw cut k : ℤ)
    (s : LoopState) : LoopState :=
  let needed := cut + k
  let remaining := round2 s.available
  let segs :=
    if 0 < s.pieces ∨ 0 < remaining then
      s.segments ++ [{ source := s.src_label, source_length := s.src_init,
                       pieces := s.pieces, cut_length := cut, remaining := remaining }]
    else s.segments
  let scraps :=
    if SCRAP_SAVE_THRESHOLD_MM ≤ remaining then s.scraps ++ [remaining] else s.scraps
  let used :=
    match s.src_id with
    | some lid => s.used_ids ++ [lid]
    | none => s.used_ids
  let ul := s.used_leftover || s.src_id.isSome
  let nxt := nextSourceAux raw needed (leftovers.drop s.idx)
  { quantity := s.quantity, idx := s.idx + nxt.consumed, available := nxt.length,
    pieces := 0, src_init := nxt.length, src_label := nxt.label, src_id := nxt.lid,
    segments := segs, scraps := scraps, used_ids := used, used_leftover := ul,
    done := decide (0 < s.quantity) && decide (nxt.length < needed) }

/-- One iteration of the loop body (app.py lines 288-313): cut a piece when
the source can take one, otherwise close the segment and advance. -/
def stepF (leftovers : List LeftoverRecord) (raw cut k : ℤ) (s : LoopState) : LoopState :=
  let needed := cut + k
  if needed ≤ s.available then
    { s with pieces := s.pieces + 1
             quantity := s.quantity - 1
             available := round2 (s.available - needed) }
  else closeAdvance leftovers raw cut k s

/-- The loop's exit condition: the `while quantity_required > 0 and
cut_length > 0` test, or the explicit `break` (recorded in `done`). -/
def LoopTerminal (cut : ℤ) (s : LoopState) : Prop :=
  s.done = true ∨ s.quantity = 0 ∨ cut ≤ 0

instance (cut : ℤ) (s : LoopState) : Decidable (LoopTerminal cut s) := by
  unfold LoopTerminal; infer_instance

/-- Fuel-indexed unfolding of the loop of app.py lines 287-313. -/
def loopFuel (leftovers : List LeftoverRecord) (raw cut k : ℤ) :
    ℕ → LoopState → LoopState
  | 0, s => s
  | n + 1, s =>
      if LoopTerminal cut s then s
      else loopFuel leftovers raw cut k n (stepF leftovers raw cut k s)

/-- A bound on the remaining number of loop iterations: each iteration cuts
a piece, advances the leftover cursor, or replaces an exhausted source with
a fresh raw pipe that is either immediately cut from or triggers the break. -/
def loopMeasure (leftovers : List LeftoverRecord) (cut k : ℤ) (s : LoopState) : ℕ :=
  if LoopTerminal cut s then 0
  else 2 * s.quantity + 2 * (leftovers.length - s.idx) +
    (if s.available < cut + k then 1 else 0)

/-- The loop state just before the first iteration (app.py lines 260-285). -/
def initState (leftovers : List LeftoverRecord) (raw cut k : ℤ) (qty : ℤ) : LoopState :=
  let src := nextSourceAux raw (cut + k) leftovers
  { quantity := qty.toNat, idx := src.consumed, available := src.length,
    pieces := 0, src_init := src.length, src_label := src.label, src_id := src.lid,
    segments := [], scraps := [], used_ids := [], used_leftover := false, done := false }

/-- The post-loop final-segment block (app.py lines 316-329), applied only
when the loop ended with the quantity fulfilled. -/
def finishPlan (cut : ℤ) (s : LoopState) : LoopState :=
  if s.quantity = 0 then
    let remaining := round2 s.available
    { s with
      segments := s.segments ++ [{ source := s.src_label, source_length := s.src_init,
                                   pieces := s.pieces, cut_length := cut,
                                   remaining := remaining }]
      scraps := if SCRAP_SAVE_THRESHOLD_MM ≤ remaining then s.scraps ++ [remaining]
                else s.scraps
      used_ids := match s.src_id with
                  | some lid => s.used_ids ++ [lid]
                  | none => s.used_ids
      used_leftover := s.used_leftover || s.src_id.isSome }
  else s

/-- The single-size plan result (app.py lines 346-355; the early return of
lines 251-258 carries neither `material_used_incl_kerf` nor
`kerf_total_mm`, modelled as `0`). -/
structure CutResult where
  pieces_produced : ℕ
  material_used : ℤ
  material_used_incl_kerf : ℤ
  kerf_total_mm : ℤ
  scrap_saved_list : List ℤ
  used_leftover : Bool
  segments : List Segment
  suggested_raw : Option ℤ
deriving DecidableEq, Repr

/-- app.py lines 251-258: the empty single-size plan. -/
def emptyCutResult : CutResult :=
  { pieces_produced := 0, material_used := 0, material_used_incl_kerf := 0,
    kerf_total_mm := 0, scrap_saved_list := [], used_leftover := false,
    segments := [], suggested_raw := none }

/-- The pure part of `run_cutting_plan`, with an explicit loop fuel: the
result plus the consumed-leftover ids the source deletes (app.py lines
336-337).  The fuel only bounds the loop; `runCuttingPlanAux` feeds it the
measure of the initial state, which the termination theorem shows is always
enough. -/
def runCuttingPlanAuxFuel (fuel : ℕ) (k : ℤ) (leftovers : List LeftoverRecord)
    (raw_material_length cut_length : ℤ) (quantity_required : ℤ) :
    CutResult × List ℕ :=
  let cut := round2 cut_length
  let raw := round2 raw_material_length
  if cut ≤ 0 ∨ quantity_required ≤ 0 then (emptyCutResult, [])
  else
    let needed := cut + k
    let s0 := initState leftovers raw cut k quantity_required
    let fin := finishPlan cut (loopFuel leftovers raw cut k fuel s0)
    let suggested :=
      match fin.segments.getLast? with
      | some sg =>
          if strStartsWith sg.source "Raw pipe" = true ∧ 0 < sg.remaining then
            some (round2 sg.remaining)
          else none
      | none => none
    let total_pieces := (fin.segments.map Segment.pieces).sum
    ({ pieces_produced := total_pieces,
       material_used := round2 (total_pieces * cut),
       material_used_incl_kerf := round2 (total_pieces * needed),
       kerf_total_mm := round2 (total_pieces * k),
       scrap_saved_list := fin.scraps,
       used_leftover := fin.used_leftover,
       segments := fin.segments,
       suggested_raw := suggested }, fin.used_ids)

/-- The pure part of `run_cutting_plan` (app.py lines 241-334 and 341-355). -/
def runCuttingPlanAux (k : ℤ) (leftovers : List LeftoverRecord)
    (raw_material_length cut_length : ℤ) (quantity_required : ℤ) :
    CutResult × List ℕ :=
  runCuttingPlanAuxFuel
    (loopMeasure leftovers (round2 cut_length) k
      (initState leftovers (round2 raw_material_length) (round2 cut_length) k
        quantity_required))
    k leftovers raw_material_length cut_length quantity_required

/-- `run_cutting_plan` over an arbitrary kerf parameter, with the leftover
store threaded through: the function itself reads the sorted leftovers and,
before returning, deletes the consumed ids and inserts the saved scraps
(app.py lines 260 and 336-339). -/
def run_cutting_plan_kerf (k : ℤ) (st : Store)
    (raw_material_length cut_length quantity_required : ℤ) : CutResult × Store :=
  let leftovers := get_leftovers_sorted st
  let res := runCuttingPlanAux k leftovers raw_material_length cut_length quantity_required
  let st2 := res.2.foldl delete_leftover st
  let st3 := res.1.scrap_saved_list.foldl insert_leftover st2
  (res.1, st3)

/-- `run_cutting_plan` (app.py lines 241-355), with the source's fixed kerf. -/
def run_cutting_plan (st : Store)
    (raw_material_length cut_length quantity_required : ℤ) : CutResult × Store :=
  run_cutting_plan_kerf KERF_MM st raw_material_length cut_length quantity_required

/-! ## The caller's inventory update for the multi-size plan
(`index`, app.py lines 384-397) -/

/-- `p.get("leftover_id")` used as a Python truth value. -/
def idTruthy : Option ℕ → Bool
  | none => false
  | some n => decide (n ≠ 0)

/-- The batch mutation lists the `index` handler derives from a multi-size
result (app.py lines 386-395): ids of consumed leftovers to delete, and
scraps at or above the save threshold to insert. -/
def multiMutations (mr : MultiResult) : List ℕ × List ℤ :=
  mr.pipes.foldl (fun acc p =>
    if idTruthy p.leftover_id = true ∧ 0 < p.num_cuts then
      (acc.1 ++ [p.leftover_id.getD 0],
       if SCRAP_SAVE_THRESHOLD_MM ≤ p.scrap then acc.2 ++ [p.scrap] else acc.2)
    else if idTruthy p.leftover_id = false ∧ SCRAP_SAVE_THRESHOLD_MM ≤ p.scrap then
      (acc.1, acc.2 ++ [p.scrap])
    else acc) ([], [])

/-- The `index` handler's application of those mutations (app.py lines
385-397): nothing happens when the plan has no pipes; otherwise one batch
delete followed by one batch insert. -/
def applyMultiMutations (st : Store) (mr : MultiResult) : Store :=
  if mr.pipes.isEmpty then st
  else
    let m := multiMutations mr
    insert_leftovers_batch (delete_leftovers_batch st m.1) m.2

/-! ## Invariant predicates used by the verification -/

/-- The working-pipe invariant of spec §3: the cached remainder equals the
capacity less the cuts and their kerf, it is non-negative, and every
assigned cut is positive. -/
def PipeInv (k : ℤ) (p : Pipe) : Prop :=
  p.remaining = p.capacity - (p.cuts.sum + k * p.cuts.length) ∧
  0 ≤ p.remaining ∧ ∀ c ∈ p.cuts, 0 < c

/-- The single-size loop invariant: the running remainder of the current
source equals its initial length less the pieces cut so far (with kerf), it
is non-negative once a piece has been cut, a fulfilled quantity implies the
current source was cut from, and every recorded segment satisfies the
conservation equation with a non-negative remainder. -/
def LoopInv (cut k : ℤ) (s : LoopState) : Prop :=
  s.available = s.src_init - s.pieces * (cut + k) ∧
  (0 < s.pieces → 0 ≤ s.available) ∧
  (s.quantity = 0 → 0 < s.pieces) ∧
  ∀ sg ∈ s.segments,
    sg.remaining = sg.source_length - ((sg.pieces : ℤ) * sg.cut_length + k * sg.pieces) ∧
    0 ≤ sg.remaining

/-- The scrap-queue invariant of the single-size loop: the queued scraps are
exactly the recorded segment remainders at or above the save threshold. -/
def ScrapsInv (s : LoopState) : Prop :=
  s.scraps = (s.segments.map Segment.remaining).filter
    (fun r => decide (SCRAP_SAVE_THRESHOLD_MM ≤ r))

/-! ## Basic list helpers -/

lemma enumIdxFrom_length (n : ℕ) (l : List α) : (enumIdxFrom n l).length = l.length := by
  induction l generalizing n with
  | nil => rfl
  | cons a t ih => simp [enumIdxFrom, ih]

lemma mem_enumIdxFrom {l : List α} {n i : ℕ} {a : α} :
    (i, a) ∈ enumIdxFrom n l ↔ ∃ j, i = n + j ∧ l.get? j = some a := by
  induction l generalizing n with
  | nil => simp [enumIdxFrom]
  | cons b t ih =>
      simp only [enumIdxFrom, List.mem_cons, Prod.mk.injEq, ih]
      constructor
      · rintro (⟨rfl, rfl⟩ | ⟨j, rfl, hj⟩)
        · exact ⟨0, by omega, rfl⟩
        · exact ⟨j + 1, by omega, hj⟩
      · rintro ⟨j, rfl, hj⟩
        cases j with
        | zero =>
            left
            exact ⟨by omega, by simpa using hj.symm⟩
        | succ j =>
            right
            exact ⟨j, by omega, by simpa using hj⟩

lemma mem_enumIdx {l : List α} {i : ℕ} {a : α} :
    (i, a) ∈ enumIdx l ↔ l.get? i = some a := by
  unfold enumIdx
  rw [mem_enumIdxFrom]
  constructor
  · rintro ⟨j, rfl, hj⟩
    simpa using hj
  · intro h
    exact ⟨i, by omega, h⟩

lemma enumIdx_length (l : List α) : (enumIdx l).length = l.length :=
  enumIdxFrom_length 0 l

lemma getLast?_mem2 {l : List α} {a : α} (h : l.getLast? = some a) : a ∈ l := by
  obtain ⟨hne, heq⟩ := List.mem_getLast?_eq_getLast (Option.mem_def.mpr h)
  exact heq ▸ List.getLast_mem hne

/-! ## The best-fit search: specification lemmas -/

lemma stepCB_eq_none {needed : ℤ} {acc : Option (ℕ × ℤ)} {ip : ℕ × Pipe} :
    stepCB needed acc ip = none ↔ acc = none ∧ SkipPipe needed ip.2 := by
  by_cases h1 : ip.2.remaining < needed
  · simp [stepCB, h1, SkipPipe]
  · by_cases h2 : ip.2.is_leftover = false ∧ ip.2.cuts ≠ [] ∧
        isRemainingUsable ip.2.remaining = true ∧
        isRemainingUsable (ip.2.remaining - needed) = false
    · simp [stepCB, h1, h2, SkipPipe]
    · cases acc with
      | none => simp [stepCB, h1, h2, SkipPipe]
      | some best =>
          by_cases h3 : ip.2.remaining - needed < best.2 <;>
            simp [stepCB, h1, h2, h3, SkipPipe]

lemma foldl_stepCB_eq_none {needed : ℤ} :
    ∀ (l : List (ℕ × Pipe)) (acc : Option (ℕ × ℤ)),
      l.foldl (stepCB needed) acc = none ↔
        acc = none ∧ ∀ ip ∈ l, SkipPipe needed ip.2 := by
  intro l
  induction l with
  | nil => simp
  | cons x t ih =>
      intro acc
      rw [List.foldl_cons, ih, stepCB_eq_none]
      simp only [List.mem_cons]
      constructor
      · rintro ⟨⟨ha, hx⟩, ht⟩
        refine ⟨ha, ?_⟩
        rintro ip (rfl | hip)
        · exact hx
        · exact ht ip hip
      · rintro ⟨ha, hall⟩
        exact ⟨⟨ha, hall x (Or.inl rfl)⟩, fun ip hip => hall ip (Or.inr hip)⟩

lemma foldl_stepCB_spec (needed : ℤ) (P : ℕ × Pipe → Prop) :
    ∀ (l : List (ℕ × Pipe)) (acc : Option (ℕ × ℤ)),
      (∀ ip ∈ l, P ip ∧ needed ≤ ip.2.remaining) →
      (acc = none ∨
        ∃ ip, P ip ∧ needed ≤ ip.2.remaining ∧ acc = some (ip.1, ip.2.remaining - needed)) →
      (l.foldl (stepCB needed) acc = none ∨
        ∃ ip, P ip ∧ needed ≤ ip.2.remaining ∧
          l.foldl (stepCB needed) acc = some (ip.1, ip.2.remaining - needed)) := by
  intro l
  induction l with
  | nil =>
      intro acc _ hacc
      simpa using hacc
  | cons x t ih =>
      intro acc hl hacc
      rw [List.foldl_cons]
      refine ih (stepCB needed acc x) (fun ip hip => hl ip (List.mem_cons_of_mem _ hip)) ?_
      by_cases h1 : x.2.remaining < needed
      · simpa [stepCB, h1] using hacc
      · by_cases h2 : x.2.is_leftover = false ∧ x.2.cuts ≠ [] ∧
            isRemainingUsable x.2.remaining = true ∧
            isRemainingUsable (x.2.remaining - needed) = false
        · simpa [stepCB, h1, h2] using hacc
        · have hx := hl x (List.mem_cons_self x t)
          cases acc with
          | none =>
              right
              exact ⟨x, hx.1, hx.2, by simp [stepCB, h1, h2]⟩
          | some best =>
              by_cases h3 : x.2.remaining - needed < best.2
              · right
                exact ⟨x, hx.1, hx.2, by simp [stepCB, h1, h2, h3]⟩
              · rcases hacc with hacc | ⟨ip, hP, hle, heq⟩
                · simp at hacc
                · right
                  exact ⟨ip, hP, hle, by simp [stepCB, h1, h2, h3, heq]⟩

lemma mem_cbCandidates {k : ℤ} {pipes : List Pipe} {cut : ℤ} {ip : ℕ × Pipe} :
    ip ∈ cbCandidates k pipes cut ↔
      pipes.get? ip.1 = some ip.2 ∧ cut + k ≤ ip.2.remaining := by
  obtain ⟨i, p⟩ := ip
  simp [cbCandidates, List.mem_filter, mem_enumIdx]

lemma mem_cbLeftoverCandidates {k : ℤ} {pipes : List Pipe} {cut : ℤ} {ip : ℕ × Pipe} :
    ip ∈ cbLeftoverCandidates k pipes cut ↔
      pipes.get? ip.1 = some ip.2 ∧ cut + k ≤ ip.2.remaining ∧ ip.2.is_leftover = true := by
  simp [cbLeftoverCandidates, List.mem_filter, mem_cbCandidates, and_assoc]

lemma mem_cbSearchList_sub {k : ℤ} {pipes : List Pipe} {cut : ℤ} {ip : ℕ × Pipe}
    (h : ip ∈ cbSearchList k pipes cut) :
    pipes.get? ip.1 = some ip.2 ∧ cut + k ≤ ip.2.remaining := by
  unfold cbSearchList at h
  by_cases he : (cbLeftoverCandidates k pipes cut).isEmpty
  · rw [if_pos he] at h
    exact mem_cbCandidates.mp h
  · rw [if_neg he] at h
    have := mem_cbLeftoverCandidates.mp h
    exact ⟨this.1, this.2.1⟩

/-- What a successful best-fit search guarantees: the chosen index names an
existing pipe that can take the cut, and the reported remainder is exactly
that pipe's remainder less `cut + kerf`. -/
lemma chooseBest_some_spec {k : ℤ} {pipes : List Pipe} {cut : ℤ} {i : ℕ} {ra : ℤ}
    (h : chooseBest k pipes cut = some (i, ra)) :
    ∃ p, pipes.get? i = some p ∧ cut + k ≤ p.remaining ∧ ra = p.remaining - (cut + k) := by
  unfold chooseBest at h
  have hspec := foldl_stepCB_spec (cut + k)
    (fun ip => pipes.get? ip.1 = some ip.2)
    (cbSearchList k pipes cut) none
    (fun ip hip => ⟨(mem_cbSearchList_sub hip).1, (mem_cbSearchList_sub hip).2⟩)
    (Or.inl rfl)
  rcases hspec with hnone | ⟨ip, hP, hle, heq⟩
  · rw [h] at hnone
    exact absurd hnone (by simp)
  · rw [h] at heq
    obtain ⟨h1, h2⟩ := Prod.mk.injEq .. ▸ Option.some.injEq .. ▸ heq
    exact ⟨ip.2, h1 ▸ hP, hle, h2⟩

/-- The best-fit search fails exactly when every pipe is skipped: it cannot
take the cut, or the future-usability guard blocks it. -/
lemma chooseBest_none_iff {k : ℤ} {pipes : List Pipe} {cut : ℤ} :
    chooseBest k pipes cut = none ↔ ∀ p ∈ pipes, SkipPipe (cut + k) p := by
  unfold chooseBest
  rw [foldl_stepCB_eq_none]
  simp only [true_and]
  constructor
  · intro hall p hp
    by_cases hle : cut + k ≤ p.remaining
    · obtain ⟨i, hi⟩ := List.mem_iff_get?.mp hp
      have hc : (i, p) ∈ cbCandidates k pipes cut := mem_cbCandidates.mpr ⟨hi, hle⟩
      by_cases he : (cbLeftoverCandidates k pipes cut).isEmpty
      · have := hall (i, p) (by rw [cbSearchList, if_pos he]; exact hc)
        exact this
      · obtain ⟨ip, hip⟩ := List.exists_mem_of_ne_nil _
          (by simpa [List.isEmpty_iff] using he)
        have hmem := mem_cbLeftoverCandidates.mp hip
        have := hall ip (by rw [cbSearchList, if_neg he]; exact hip)
        rcases this with hlt | hguard
        · exact absurd hmem.2.1 (not_le.mpr hlt)
        · rw [hmem.2.2] at hguard
          exact absurd hguard.1 (by simp)
    · exact Or.inl (not_le.mp hle)
  · intro hall ip hip
    have hsub := mem_cbSearchList_sub hip
    exact hall ip.2 (List.get?_mem hsub.1)

/-- When some leftover pipe can take the cut, the search list is the
leftover candidates and the search succeeds on one of them. -/
lemma chooseBest_leftover {k : ℤ} {pipes : List Pipe} {cut : ℤ}
    (h : ∃ p ∈ pipes, p.is_leftover = true ∧ cut + k ≤ p.remaining) :
    ∃ i p, pipes.get? i = some p ∧ p.is_leftover = true ∧
      chooseBest k pipes cut = some (i, p.remaining - (cut + k)) := by
  obtain ⟨p, hp, hlo, hle⟩ := h
  obtain ⟨i, hi⟩ := List.mem_iff_get?.mp hp
  have hlc : (i, p) ∈ cbLeftoverCandidates k pipes cut :=
    mem_cbLeftoverCandidates.mpr ⟨hi, hle, hlo⟩
  have hne : ¬ (cbLeftoverCandidates k pipes cut).isEmpty := by
    simp only [List.isEmpty_iff]
    intro hnil
    rw [hnil] at hlc
    exact absurd hlc (List.not_mem_nil _)
  have hsl : cbSearchList k pipes cut = cbLeftoverCandidates k pipes cut := by
    rw [cbSearchList, if_neg hne]
  have hnn : chooseBest k pipes cut ≠ none := by
    intro hcb
    have hall := chooseBest_none_iff.mp hcb p hp
    rcases hall with hlt | hguard
    · exact absurd hle (not_le.mpr hlt)
    · rw [hlo] at hguard
      exact absurd hguard.1 (by simp)
  have hspec := foldl_stepCB_spec (cut + k)
    (fun ip => pipes.get? ip.1 = some ip.2 ∧ ip.2.is_leftover = true)
    (cbSearchList k pipes cut) none
    (fun ip hip => by
      rw [hsl] at hip
      have := mem_cbLeftoverCandidates.mp hip
      exact ⟨⟨this.1, this.2.2⟩, this.2.1⟩)
    (Or.inl rfl)
  rcases hspec with hnone | ⟨ip, hP, hle2, heq⟩
  · exact absurd hnone hnn
  · exact ⟨ip.1, ip.2, hP.1, hP.2, heq⟩

/-! ## Placement: invariant preservation -/

lemma placeCut_some_eq {k : ℤ} {pipes : List Pipe} {cut : ℤ} {i : ℕ} {ra : ℤ}
    (h : chooseBest k pipes cut = some (i, ra)) :
    placeCut k pipes cut = (enumIdx pipes).map (fun jp =>
      if jp.1 = i then { jp.2 with cuts := jp.2.cuts ++ [cut], remaining := round2 ra }
      else jp.2) := by
  unfold placeCut
  rw [h]

lemma placeCut_none_eq {k : ℤ} {pipes : List Pipe} {cut : ℤ}
    (h : chooseBest k pipes cut = none) :
    placeCut k pipes cut = pipes ++ [freshPipe k cut] := by
  unfold placeCut
  rw [h]

lemma placeCut_inv {k : ℤ} {pipes : List Pipe} {cut : ℤ}
    (hcut : 0 < cut ∧ cut + k ≤ STANDARD_RAW_LENGTH_MM)
    (hinv : ∀ p ∈ pipes, PipeInv k p) :
    ∀ q ∈ placeCut k pipes cut, PipeInv k q := by
  intro q hq
  cases h : chooseBest k pipes cut with
  | some ira =>
      obtain ⟨i, ra⟩ := ira
      obtain ⟨p, hget, hle, hra⟩ := chooseBest_some_spec h
      rw [placeCut_some_eq h] at hq
      rw [List.mem_map] at hq
      obtain ⟨⟨j, p2⟩, hjp, rfl⟩ := hq
      have hj2 : pipes.get? j = some p2 := mem_enumIdx.mp hjp
      by_cases hji : j = i
      · subst hji
        rw [hget] at hj2
        obtain rfl : p = p2 := by injection hj2
        simp only [if_pos rfl]
        obtain ⟨hcons, _, hpos⟩ := hinv p (List.get?_mem hget)
        refine ⟨?_, ?_, ?_⟩
        · show round2 ra = p.capacity - ((p.cuts ++ [cut]).sum + k * (p.cuts ++ [cut]).length)
          simp only [round2, List.sum_append, List.length_append, List.sum_cons,
            List.sum_nil, List.length_cons, List.length_nil, add_zero]
          rw [hra, hcons]
          push_cast
          ring
        · show 0 ≤ round2 ra
          simp only [round2]
          omega
        · intro c hc
          rcases List.mem_append.mp hc with hc | hc
          · exact hpos c hc
          · rw [List.mem_singleton.mp hc]
            exact hcut.1
      · rw [if_neg hji]
        exact hinv p2 (List.get?_mem hj2)
  | none =>
      rw [placeCut_none_eq h] at hq
      rcases List.mem_append.mp hq with hq | hq
      · exact hinv q hq
      · rw [List.mem_singleton.mp hq]
        refine ⟨?_, ?_, ?_⟩
        · show round2 (STANDARD_RAW_LENGTH_MM - (cut + k)) =
            STANDARD_RAW_LENGTH_MM - (([cut] : List ℤ).sum + k * ([cut] : List ℤ).length)
          simp only [round2, List.sum_cons, List.sum_nil, add_zero, List.length_cons,
            List.length_nil]
          push_cast
          ring
        · show (0 : ℤ) ≤ round2 (STANDARD_RAW_LENGTH_MM - (cut + k))
          simp only [round2]
          omega
        · intro c hc
          rw [List.mem_singleton.mp hc]
          exact hcut.1

lemma placeAll_inv {k : ℤ} {flat : List ℤ}
    (hflat : ∀ c ∈ flat, 0 < c ∧ c + k ≤ STANDARD_RAW_LENGTH_MM) :
    ∀ {pipes : List Pipe}, (∀ p ∈ pipes, PipeInv k p) →
      ∀ q ∈ placeAll k pipes flat, PipeInv k q := by
  induction flat with
  | nil =>
      intro pipes hinv q hq
      exact hinv q hq
  | cons c t ih =>
      intro pipes hinv q hq
      have hc := hflat c (List.mem_cons_self c t)
      have ht : ∀ x ∈ t, 0 < x ∧ x + k ≤ STANDARD_RAW_LENGTH_MM :=
        fun x hx => hflat x (List.mem_cons_of_mem _ hx)
      exact ih ht (placeCut_inv hc hinv) q hq

lemma mem_flatten_foldl {c : ℤ} :
    ∀ (l : List (ℤ × ℤ)) (acc : List ℤ),
      c ∈ l.foldl (fun acc pr =>
        let L := round2 pr.1
        if L ≤ 0 ∨ pr.2 ≤ 0 then acc else acc ++ List.replicate pr.2.toNat L) acc →
      c ∈ acc ∨ ∃ pr ∈ l, 0 < round2 pr.1 ∧ 0 < pr.2 ∧ c = round2 pr.1 := by
  intro l
  induction l with
  | nil =>
      intro acc h
      exact Or.inl (by simpa using h)
  | cons x t ih =>
      intro acc h
      rw [List.foldl_cons] at h
      rcases ih _ h with hacc | ⟨pr, hpr, h1, h2, h3⟩
      · by_cases hcond : round2 x.1 ≤ 0 ∨ x.2 ≤ 0
        · rw [if_pos hcond] at hacc
          exact Or.inl hacc
        · rw [if_neg hcond] at hacc
          rcases List.mem_append.mp hacc with hacc | hrep
          · exact Or.inl hacc
          · right
            push_neg at hcond
            exact ⟨x, List.mem_cons_self x t, hcond.1, hcond.2,
              List.eq_of_mem_replicate hrep⟩
      · exact Or.inr ⟨pr, List.mem_cons_of_mem _ hpr, h1, h2, h3⟩

lemma mem_flattenReqs {reqs : List (ℤ × ℤ)} {c : ℤ} (h : c ∈ flattenReqs reqs) :
    ∃ pr ∈ reqs, 0 < round2 pr.1 ∧ 0 < pr.2 ∧ c = round2 pr.1 := by
  unfold flattenReqs at h
  have h2 := (List.perm_insertionSort intDesc _).mem_iff.mp h
  rcases mem_flatten_foldl _ _ h2 with hnil | hex
  · exact absurd hnil (List.not_mem_nil c)
  · exact hex

lemma mem_seedPipes {lfts : List LeftoverRecord} {q : Pipe} (h : q ∈ seedPipes lfts) :
    ∃ r ∈ lfts, 0 < round2 r.length ∧
      q = { remaining := round2 r.length, cuts := [], is_leftover := true,
            leftover_id := some r.id, capacity := round2 r.length } := by
  unfold seedPipes at h
  suffices hgen : ∀ (l : List LeftoverRecord) (acc : List Pipe),
      q ∈ l.foldl (fun acc row =>
        let length_mm := round2 row.length
        if length_mm ≤ 0 then acc
        else acc ++ [{ remaining := length_mm, cuts := [], is_leftover := true,
                       leftover_id := some row.id, capacity := length_mm }]) acc →
      q ∈ acc ∨ ∃ r ∈ l, 0 < round2 r.length ∧
        q = { remaining := round2 r.length, cuts := [], is_leftover := true,
              leftover_id := some r.id, capacity := round2 r.length } by
    rcases hgen lfts [] h with hnil | hex
    · exact absurd hnil (List.not_mem_nil q)
    · exact hex
  intro l
  induction l with
  | nil =>
      intro acc hq
      exact Or.inl (by simpa using hq)
  | cons x t ih =>
      intro acc hq
      rw [List.foldl_cons] at hq
      rcases ih _ hq with hacc | ⟨r, hr, h1, h2⟩
      · by_cases hcond : round2 x.length ≤ 0
        · rw [if_pos hcond] at hacc
          exact Or.inl hacc
        · rw [if_neg hcond] at hacc
          rcases List.mem_append.mp hacc with hacc | hx
          · exact Or.inl hacc
          · right
            exact ⟨x, List.mem_cons_self x t, by omega, List.mem_singleton.mp hx⟩
      · exact Or.inr ⟨r, List.mem_cons_of_mem _ hr, h1, h2⟩

lemma seedPipes_inv {k : ℤ} {lfts : List LeftoverRecord} :
    ∀ p ∈ seedPipes lfts, PipeInv k p := by
  intro p hp
  obtain ⟨r, _, hpos, rfl⟩ := mem_seedPipes hp
  refine ⟨?_, by simpa using le_of_lt hpos, by simp⟩
  simp

/-! ## The last-pipe fixup never moves a cut -/

lemma remAfterRemoval_ge (k cap : ℤ) (hk : 0 ≤ k) {cuts sorted : List ℤ}
    (hperm : List.Perm sorted cuts) (hpos : ∀ c ∈ cuts, 0 < c) (i : ℕ) :
    cap - (cuts.sum + k * cuts.length) ≤ remAfterRemoval k cap sorted i := by
  have hsum : (sorted.take i).sum + (sorted.drop i).sum = cuts.sum := by
    rw [← hperm.sum_eq, ← List.sum_append, List.take_append_drop]
  have htake_nonneg : 0 ≤ (sorted.take i).sum := by
    apply List.sum_nonneg
    intro x hx
    exact le_of_lt (hpos x (hperm.mem_iff.mp (List.mem_of_mem_take hx)))
  have hdrop_sum_nonneg : 0 ≤ (sorted.drop i).sum := by
    apply List.sum_nonneg
    intro x hx
    exact le_of_lt (hpos x (hperm.mem_iff.mp (List.mem_of_mem_drop hx)))
  have hlen : (sorted.drop i).length ≤ cuts.length := by
    rw [← hperm.length_eq, List.length_drop]
    omega
  have hklen : k * ((sorted.drop i).length : ℤ) ≤ k * (cuts.length : ℤ) :=
    mul_le_mul_of_nonneg_left (by exact_mod_cast hlen) hk
  have hklen_nonneg : 0 ≤ k * ((cuts.length : ℤ)) :=
    mul_nonneg hk (by positivity)
  unfold remAfterRemoval
  by_cases he : (sorted.drop i).isEmpty
  · rw [if_pos he]
    linarith
  · rw [if_neg he]
    linarith

lemma findMoveCount_eq_zero {k cap rem : ℤ} (hk : 0 ≤ k) {cuts sorted : List ℤ}
    (hperm : List.Perm sorted cuts)
    (hcons : rem = cap - (cuts.sum + k * cuts.length))
    (hpos : ∀ c ∈ cuts, 0 < c)
    (hover : LAST_PIPE_SCRAP_MAX_MM < rem) :
    findMoveCount k cap sorted = 0 := by
  unfold findMoveCount
  have hfind : (List.range' 1 sorted.length).find?
      (fun i => decide (remAfterRemoval k cap sorted i ≤ LAST_PIPE_SCRAP_MAX_MM)) = none := by
    rw [List.find?_eq_none]
    intro i _
    simp only [decide_eq_true_eq]
    intro hle
    have := remAfterRemoval_ge k cap hk hperm hpos i
    rw [← hcons] at this
    omega
  rw [hfind]

lemma fixupStage_id {k : ℤ} (hk : 0 ≤ k) {pipes : List Pipe}
    (hinv : ∀ p ∈ pipes,
      p.remaining = p.capacity - (p.cuts.sum + k * p.cuts.length) ∧ ∀ c ∈ p.cuts, 0 < c) :
    fixupStage k pipes = pipes := by
  unfold fixupStage
  cases hl : pipes.getLast? with
  | none => rfl
  | some last =>
      simp only []
      by_cases hc : LAST_PIPE_SCRAP_MAX_MM < last.remaining ∧ last.cuts ≠ []
      · rw [if_pos hc]
        obtain ⟨hcons, hpos⟩ := hinv last (getLast?_mem2 hl)
        have hmc : findMoveCount k last.capacity (last.cuts.insertionSort intAsc) = 0 :=
          findMoveCount_eq_zero hk (List.perm_insertionSort intAsc last.cuts) hcons hpos hc.1
        rw [hmc]
        rfl
      · rw [if_neg hc]

lemma dropEmptyRaw_sub {pipes : List Pipe} {q : Pipe} (h : q ∈ dropEmptyRaw pipes) :
    q ∈ pipes :=
  (List.mem_filter.mp h).1

/-- Every pipe of a finished multi-size run satisfies the working-pipe
invariant, provided every requested cut fits a standard raw pipe. -/
lemma multiPipes_inv {k : ℤ} {reqs : List (ℤ × ℤ)} {lfts : List LeftoverRecord}
    (hk : 0 ≤ k)
    (h : ∀ pr ∈ reqs, round2 pr.1 + k ≤ STANDARD_RAW_LENGTH_MM) :
    ∀ p ∈ multiPipes k reqs lfts, PipeInv k p := by
  have hflat : ∀ c ∈ flattenReqs reqs, 0 < c ∧ c + k ≤ STANDARD_RAW_LENGTH_MM := by
    intro c hc
    obtain ⟨pr, hpr, hL, _, rfl⟩ := mem_flattenReqs hc
    exact ⟨hL, h pr hpr⟩
  have hplace : ∀ q ∈ placeAll k (seedPipes lfts) (flattenReqs reqs), PipeInv k q :=
    placeAll_inv hflat seedPipes_inv
  unfold multiPipes
  rw [fixupStage_id hk (fun p hp => ⟨(hplace p hp).1, (hplace p hp).2.2⟩)]
  intro p hp
  exact hplace p (dropEmptyRaw_sub hp)

/-! ## Single-size loop: invariant preservation -/

lemma not_loopTerminal {cut : ℤ} {s : LoopState} (h : ¬ LoopTerminal cut s) :
    s.done = false ∧ s.quantity ≠ 0 ∧ 0 < cut := by
  unfold LoopTerminal at h
  push_neg at h
  exact ⟨by simpa using h.1, h.2.1, by omega⟩

lemma loopFuel_terminal {lfts : List LeftoverRecord} {raw cut k : ℤ} {s : LoopState}
    (h : LoopTerminal cut s) : ∀ n, loopFuel lfts raw cut k n s = s := by
  intro n
  cases n with
  | zero => rfl
  | succ m =>
      unfold loopFuel
      rw [if_pos h]

/-- `closeAdvance` with its local bindings expanded (definitional). -/
lemma closeAdvance_eq (lfts : List LeftoverRecord) (raw cut k : ℤ) (s : LoopState) :
    closeAdvance lfts raw cut k s =
      { quantity := s.quantity,
        idx := s.idx + (nextSourceAux raw (cut + k) (lfts.drop s.idx)).consumed,
        available := (nextSourceAux raw (cut + k) (lfts.drop s.idx)).length,
        pieces := 0,
        src_init := (nextSourceAux raw (cut + k) (lfts.drop s.idx)).length,
        src_label := (nextSourceAux raw (cut + k) (lfts.drop s.idx)).label,
        src_id := (nextSourceAux raw (cut + k) (lfts.drop s.idx)).lid,
        segments :=
          if 0 < s.pieces ∨ 0 < round2 s.available then
            s.segments ++ [{ source := s.src_label, source_length := s.src_init,
                             pieces := s.pieces, cut_length := cut,
                             remaining := round2 s.available }]
          else s.segments,
        scraps :=
          if SCRAP_SAVE_THRESHOLD_MM ≤ round2 s.available then
            s.scraps ++ [round2 s.available]
          else s.scraps,
        used_ids :=
          match s.src_id with
          | some lid => s.used_ids ++ [lid]
          | none => s.used_ids,
        used_leftover := s.used_leftover || s.src_id.isSome,
        done := decide (0 < s.quantity) &&
          decide ((nextSourceAux raw (cut + k) (lfts.drop s.idx)).length < cut + k) } :=
  rfl

/-- `finishPlan` with its local bindings expanded (definitional). -/
lemma finishPlan_eq (cut : ℤ) (s : LoopState) :
    finishPlan cut s =
      if s.quantity = 0 then
        { s with
          segments := s.segments ++ [{ source := s.src_label, source_length := s.src_init,
                                       pieces := s.pieces, cut_length := cut,
                                       remaining := round2 s.available }]
          scraps := if SCRAP_SAVE_THRESHOLD_MM ≤ round2 s.available then
              s.scraps ++ [round2 s.available]
            else s.scraps
          used_ids := match s.src_id with
                      | some lid => s.used_ids ++ [lid]
                      | none => s.used_ids
          used_leftover := s.used_leftover || s.src_id.isSome }
      else s :=
  rfl

lemma stepF_loopInv {lfts : List LeftoverRecord} {raw cut k : ℤ} {s : LoopState}
    (hterm : ¬ LoopTerminal cut s) (hinv : LoopInv cut k s) :
    LoopInv cut k (stepF lfts raw cut k s) := by
  obtain ⟨hdone, hq, hcut⟩ := not_loopTerminal hterm
  obtain ⟨h1, h2, h3, h4⟩ := hinv
  unfold stepF
  by_cases hav : cut + k ≤ s.available
  · rw [if_pos hav]
    refine ⟨?_, ?_, ?_, ?_⟩
    · show round2 (s.available - (cut + k)) =
        s.src_init - ((s.pieces + 1 : ℕ) : ℤ) * (cut + k)
      simp only [round2]
      rw [h1]
      push_cast
      ring
    · intro _
      show (0 : ℤ) ≤ round2 (s.available - (cut + k))
      simp only [round2]
      omega
    · intro _
      show 0 < s.pieces + 1
      omega
    · exact h4
  · rw [if_neg hav, closeAdvance_eq]
    refine ⟨?_, ?_, ?_, ?_⟩
    · show (nextSourceAux raw (cut + k) (lfts.drop s.idx)).length =
        (nextSourceAux raw (cut + k) (lfts.drop s.idx)).length - ((0 : ℕ) : ℤ) * (cut + k)
      push_cast
      ring
    · intro h0
      exact absurd (show (0 : ℕ) < 0 from h0) (lt_irrefl 0)
    · intro h0
      exact absurd (show s.quantity = 0 from h0) hq
    · intro sg hsg
      have hsg2 : sg ∈
          (if 0 < s.pieces ∨ 0 < round2 s.available then
            s.segments ++ [{ source := s.src_label, source_length := s.src_init,
                             pieces := s.pieces, cut_length := cut,
                             remaining := round2 s.available }]
          else s.segments) := hsg
      by_cases hrec : 0 < s.pieces ∨ 0 < round2 s.available
      · rw [if_pos hrec] at hsg2
        rcases List.mem_append.mp hsg2 with hold | hnew
        · exact h4 sg hold
        · rw [List.mem_singleton.mp hnew]
          refine ⟨?_, ?_⟩
          · show round2 s.available =
              s.src_init - ((s.pieces : ℤ) * cut + k * s.pieces)
            simp only [round2]
            rw [h1]
            ring
          · show (0 : ℤ) ≤ round2 s.available
            simp only [round2] at hrec ⊢
            rcases hrec with hp | hr
            · exact h2 hp
            · omega
      · rw [if_neg hrec] at hsg2
        exact h4 sg hsg2

lemma loopFuel_loopInv {lfts : List LeftoverRecord} {raw cut k : ℤ} :
    ∀ (n : ℕ) (s : LoopState), LoopInv cut k s →
      LoopInv cut k (loopFuel lfts raw cut k n s) := by
  intro n
  induction n with
  | zero => intro s hinv; exact hinv
  | succ m ih =>
      intro s hinv
      unfold loopFuel
      by_cases ht : LoopTerminal cut s
      · rw [if_pos ht]; exact hinv
      · rw [if_neg ht]
        exact ih _ (stepF_loopInv ht hinv)

lemma finishPlan_loopInv {cut k : ℤ} {s : LoopState} (hinv : LoopInv cut k s) :
    ∀ sg ∈ (finishPlan cut s).segments,
      sg.remaining = sg.source_length - ((sg.pieces : ℤ) * sg.cut_length + k * sg.pieces) ∧
      0 ≤ sg.remaining := by
  obtain ⟨h1, h2, h3, h4⟩ := hinv
  intro sg hsg
  rw [finishPlan_eq] at hsg
  by_cases hq : s.quantity = 0
  · rw [if_pos hq] at hsg
    rcases List.mem_append.mp hsg with hold | hnew
    · exact h4 sg hold
    · rw [List.mem_singleton.mp hnew]
      have hp := h3 hq
      refine ⟨?_, ?_⟩
      · show round2 s.available =
          s.src_init - ((s.pieces : ℤ) * cut + k * s.pieces)
        simp only [round2]
        rw [h1]
        ring
      · show (0 : ℤ) ≤ round2 s.available
        simp only [round2]
        exact h2 hp
  · rw [if_neg hq] at hsg
    exact h4 sg hsg

lemma initState_loopInv {lfts : List LeftoverRecord} {raw cut k qty : ℤ}
    (hq : 0 < qty) : LoopInv cut k (initState lfts raw cut k qty) := by
  refine ⟨by simp [initState], by simp [initState], ?_, by simp [initState]⟩
  intro h0
  exfalso
  simp only [initState] at h0
  omega

/-- The conservation invariant for the segments of the pure single-size
run, at any fuel. -/
lemma auxFuel_segments_inv (fuel : ℕ) (k : ℤ) (lfts : List LeftoverRecord)
    (raw cut qty : ℤ) :
    ∀ sg ∈ (runCuttingPlanAuxFuel fuel k lfts raw cut qty).1.segments,
      sg.remaining = sg.source_length - ((sg.pieces : ℤ) * sg.cut_length + k * sg.pieces) ∧
      0 ≤ sg.remaining := by
  unfold runCuttingPlanAuxFuel
  by_cases hearly : round2 cut ≤ 0 ∨ qty ≤ 0
  · rw [if_pos hearly]
    intro sg hsg
    exact absurd hsg (List.not_mem_nil sg)
  · rw [if_neg hearly]
    simp only []
    push_neg at hearly
    exact finishPlan_loopInv
      (loopFuel_loopInv fuel _ (initState_loopInv (by omega)))

/-! ## Single-size loop: scrap-queue bookkeeping -/

lemma stepF_scrapsInv {lfts : List LeftoverRecord} {raw cut k : ℤ} {s : LoopState}
    (hinv : ScrapsInv s) : ScrapsInv (stepF lfts raw cut k s) := by
  unfold ScrapsInv at hinv ⊢
  unfold stepF
  by_cases hav : cut + k ≤ s.available
  · rw [if_pos hav]
    exact hinv
  · rw [if_neg hav, closeAdvance_eq]
    show (if SCRAP_SAVE_THRESHOLD_MM ≤ round2 s.available then
        s.scraps ++ [round2 s.available] else s.scraps) =
      ((if 0 < s.pieces ∨ 0 < round2 s.available then
          s.segments ++ [{ source := s.src_label, source_length := s.src_init,
                           pieces := s.pieces, cut_length := cut,
                           remaining := round2 s.available }]
        else s.segments).map Segment.remaining).filter
        (fun r => decide (SCRAP_SAVE_THRESHOLD_MM ≤ r))
    by_cases hthr : SCRAP_SAVE_THRESHOLD_MM ≤ round2 s.available
    · have hrec : 0 < s.pieces ∨ 0 < round2 s.available := by
        right
        simp only [round2, SCRAP_SAVE_THRESHOLD_MM] at hthr ⊢
        omega
      rw [if_pos hthr, if_pos hrec, hinv]
      simp [List.filter_append, hthr]
    · rw [if_neg hthr, hinv]
      by_cases hrec : 0 < s.pieces ∨ 0 < round2 s.available
      · rw [if_pos hrec]
        simp [List.filter_append, hthr]
      · rw [if_neg hrec]

lemma loopFuel_scrapsInv {lfts : List LeftoverRecord} {raw cut k : ℤ} :
    ∀ (n : ℕ) (s : LoopState), ScrapsInv s →
      ScrapsInv (loopFuel lfts raw cut k n s) := by
  intro n
  induction n with
  | zero => intro s hinv; exact hinv
  | succ m ih =>
      intro s hinv
      unfold loopFuel
      by_cases ht : LoopTerminal cut s
      · rw [if_pos ht]; exact hinv
      · rw [if_neg ht]
        exact ih _ (stepF_scrapsInv hinv)

lemma finishPlan_scrapsInv {cut : ℤ} {s : LoopState} (hinv : ScrapsInv s) :
    ScrapsInv (finishPlan cut s) := by
  unfold ScrapsInv at hinv ⊢
  rw [finishPlan_eq]
  by_cases hq : s.quantity = 0
  · rw [if_pos hq]
    show (if SCRAP_SAVE_THRESHOLD_MM ≤ round2 s.available then
        s.scraps ++ [round2 s.available] else s.scraps) =
      ((s.segments ++ [({ source := s.src_label, source_length := s.src_init,
                          pieces := s.pieces, cut_length := cut,
                          remaining := round2 s.available } : Segment)]).map
          Segment.remaining).filter
        (fun r => decide (SCRAP_SAVE_THRESHOLD_MM ≤ r))
    by_cases hthr : SCRAP_SAVE_THRESHOLD_MM ≤ round2 s.available
    · rw [if_pos hthr, hinv]
      simp [List.filter_append, hthr]
    · rw [if_neg hthr, hinv]
      simp [List.filter_append, hthr]
  · rw [if_neg hq]
    exact hinv

/-- At any fuel, the saved-scrap list of the pure single-size run is exactly
the list of segment remainders at or above the save threshold. -/
lemma auxFuel_scraps_eq (fuel : ℕ) (k : ℤ) (lfts : List LeftoverRecord)
    (raw cut qty : ℤ) :
    (runCuttingPlanAuxFuel fuel k lfts raw cut qty).1.scrap_saved_list =
      ((runCuttingPlanAuxFuel fuel k lfts raw cut qty).1.segments.map Segment.remaining).filter
        (fun r => decide (SCRAP_SAVE_THRESHOLD_MM ≤ r)) := by
  unfold runCuttingPlanAuxFuel
  by_cases hearly : round2 cut ≤ 0 ∨ qty ≤ 0
  · rw [if_pos hearly]
    rfl
  · rw [if_neg hearly]
    simp only []
    exact finishPlan_scrapsInv (loopFuel_scrapsInv fuel _ rfl)

/-! ## Single-size loop: termination -/

lemma nextSourceAux_consumed_le (raw needed : ℤ) :
    ∀ l : List LeftoverRecord, (nextSourceAux raw needed l).consumed ≤ l.length := by
  intro l
  induction l with
  | nil => simp [nextSourceAux]
  | cons r rest ih =>
      by_cases h : needed ≤ r.length
      · simp [nextSourceAux, h]
      · simp only [nextSourceAux, if_neg h, List.length_cons]
        omega

lemma initState_idx_le (lfts : List LeftoverRecord) (raw cut k qty : ℤ) :
    (initState lfts raw cut k qty).idx ≤ lfts.length :=
  nextSourceAux_consumed_le raw (cut + k) lfts

lemma loopMeasure_eq_of_not_terminal {lfts : List LeftoverRecord} {cut k : ℤ}
    {s : LoopState} (h : ¬ LoopTerminal cut s) :
    loopMeasure lfts cut k s =
      2 * s.quantity + 2 * (lfts.length - s.idx) +
        (if s.available < cut + k then 1 else 0) := by
  unfold loopMeasure
  rw [if_neg h]

lemma loopMeasure_le (lfts : List LeftoverRecord) (cut k : ℤ) (s : LoopState) :
    loopMeasure lfts cut k s ≤
      2 * s.quantity + 2 * (lfts.length - s.idx) + 1 := by
  unfold loopMeasure
  split_ifs <;> omega

lemma closeAdvance_quantity (lfts : List LeftoverRecord) (raw cut k : ℤ) (s : LoopState) :
    (closeAdvance lfts raw cut k s).quantity = s.quantity := rfl

lemma closeAdvance_idx (lfts : List LeftoverRecord) (raw cut k : ℤ) (s : LoopState) :
    (closeAdvance lfts raw cut k s).idx =
      s.idx + (nextSourceAux raw (cut + k) (lfts.drop s.idx)).consumed := rfl

lemma closeAdvance_available (lfts : List LeftoverRecord) (raw cut k : ℤ) (s : LoopState) :
    (closeAdvance lfts raw cut k s).available =
      (nextSourceAux raw (cut + k) (lfts.drop s.idx)).length := rfl

lemma closeAdvance_done (lfts : List LeftoverRecord) (raw cut k : ℤ) (s : LoopState) :
    (closeAdvance lfts raw cut k s).done =
      (decide (0 < s.quantity) &&
        decide ((nextSourceAux raw (cut + k) (lfts.drop s.idx)).length < cut + k)) := rfl

lemma closeAdvance_measure (raw k : ℤ) {lfts : List LeftoverRecord} {cut : ℤ}
    {s : LoopState} (hterm : ¬ LoopTerminal cut s) (hidx : s.idx ≤ lfts.length)
    (hav : ¬ cut + k ≤ s.available) :
    loopMeasure lfts cut k (closeAdvance lfts raw cut k s) < loopMeasure lfts cut k s := by
  obtain ⟨hdone, hq, hcut⟩ := not_loopTerminal hterm
  have hcons := nextSourceAux_consumed_le raw (cut + k) (lfts.drop s.idx)
  rw [List.length_drop] at hcons
  have hMs : loopMeasure lfts cut k s =
      2 * s.quantity + 2 * (lfts.length - s.idx) + 1 := by
    rw [loopMeasure_eq_of_not_terminal hterm, if_pos (not_le.mp hav)]
  by_cases ht2 : LoopTerminal cut (closeAdvance lfts raw cut k s)
  · have h0 : loopMeasure lfts cut k (closeAdvance lfts raw cut k s) = 0 := by
      unfold loopMeasure
      rw [if_pos ht2]
    omega
  · have hd := (not_loopTerminal ht2).1
    rw [closeAdvance_done] at hd
    have h0q : decide (0 < s.quantity) = true := decide_eq_true (by omega)
    rw [h0q, Bool.true_and] at hd
    have hnl : ¬ ((nextSourceAux raw (cut + k) (lfts.drop s.idx)).length < cut + k) :=
      of_decide_eq_false hd
    rw [loopMeasure_eq_of_not_terminal ht2, closeAdvance_quantity, closeAdvance_idx,
      closeAdvance_available, if_neg hnl]
    omega

lemma stepF_measure (raw k : ℤ) {lfts : List LeftoverRecord} {cut : ℤ} {s : LoopState}
    (hterm : ¬ LoopTerminal cut s) (hidx : s.idx ≤ lfts.length) :
    loopMeasure lfts cut k (stepF lfts raw cut k s) < loopMeasure lfts cut k s ∧
    (stepF lfts raw cut k s).idx ≤ lfts.length := by
  obtain ⟨hdone, hq, hcut⟩ := not_loopTerminal hterm
  unfold stepF
  by_cases hav : cut + k ≤ s.available
  · rw [if_pos hav]
    have hMs : loopMeasure lfts cut k s =
        2 * s.quantity + 2 * (lfts.length - s.idx) + 0 := by
      rw [loopMeasure_eq_of_not_terminal hterm, if_neg (not_lt.mpr hav)]
    constructor
    · have hub2 : loopMeasure lfts cut k
          ({ s with pieces := s.pieces + 1
                    quantity := s.quantity - 1
                    available := round2 (s.available - (cut + k)) } : LoopState) ≤
          2 * (s.quantity - 1) + 2 * (lfts.length - s.idx) + 1 :=
        loopMeasure_le lfts cut k
          { s with pieces := s.pieces + 1
                   quantity := s.quantity - 1
                   available := round2 (s.available - (cut + k)) }
      omega
    · exact hidx
  · rw [if_neg hav]
    refine ⟨closeAdvance_measure raw k hterm hidx hav, ?_⟩
    rw [closeAdvance_idx]
    have hcons := nextSourceAux_consumed_le raw (cut + k) (lfts.drop s.idx)
    rw [List.length_drop] at hcons
    omega

lemma loopFuel_succ (lfts : List LeftoverRecord) (raw cut k : ℤ) (n : ℕ) (s : LoopState) :
    loopFuel lfts raw cut k (n + 1) s =
      if LoopTerminal cut s then s
      else loopFuel lfts raw cut k n (stepF lfts raw cut k s) := rfl

lemma loop_stable (lfts : List LeftoverRecord) (raw cut k : ℤ) :
    ∀ (n : ℕ) (s : LoopState), s.idx ≤ lfts.length →
      loopMeasure lfts cut k s ≤ n →
      loopFuel lfts raw cut k n s =
        loopFuel lfts raw cut k (loopMeasure lfts cut k s) s ∧
      LoopTerminal cut (loopFuel lfts raw cut k (loopMeasure lfts cut k s) s) := by
  intro n
  induction n using Nat.strong_induction_on with
  | _ n ih =>
      intro s hidx hM
      by_cases ht : LoopTerminal cut s
      · have h0 : loopMeasure lfts cut k s = 0 := by
          unfold loopMeasure
          rw [if_pos ht]
        rw [h0, loopFuel_terminal ht n]
        exact ⟨rfl, ht⟩
      · have hM1 : 1 ≤ loopMeasure lfts cut k s := by
          rw [loopMeasure_eq_of_not_terminal ht]
          have hq := (not_loopTerminal ht).2.1
          split_ifs <;> omega
        obtain ⟨m, rfl⟩ : ∃ m, n = m + 1 := ⟨n - 1, by omega⟩
        obtain ⟨hdec, hidx2⟩ := stepF_measure raw k ht hidx
        have hstep : loopFuel lfts raw cut k (m + 1) s =
            loopFuel lfts raw cut k m (stepF lfts raw cut k s) := by
          rw [loopFuel_succ, if_neg ht]
        obtain ⟨j, hj⟩ : ∃ j, loopMeasure lfts cut k s = j + 1 :=
          ⟨loopMeasure lfts cut k s - 1, by omega⟩
        have hstep2 : loopFuel lfts raw cut k (loopMeasure lfts cut k s) s =
            loopFuel lfts raw cut k j (stepF lfts raw cut k s) := by
          rw [hj, loopFuel_succ, if_neg ht]
        have h1 := ih m (by omega) (stepF lfts raw cut k s) hidx2 (by omega)
        have h2 := ih j (by omega) (stepF lfts raw cut k s) hidx2 (by omega)
        constructor
        · rw [hstep, hstep2, h1.1, h2.1]
        · rw [hstep2, h2.1]
          exact h2.2

/-! ## Claim C1 -/

/-- C1, amended.  Conservation: every pipe of a multi-size run has
`remaining = capacity − (sum of cuts + kerf × cut count)`, and — provided
every requested cut plus kerf fits the standard raw length — a non-negative
remainder, reflected in the reported `scrap`; every segment of a single-size
run satisfies the same equation with a non-negative remainder
unconditionally; and a cut is appended to an *existing* pipe only when its
remaining length is at least `cut + kerf` (a freshly opened raw pipe
receives its first cut without that check, which is what forces the added
fit hypothesis — see the counterexample). -/
theorem c1_conservation :
    (∀ (k : ℤ) (reqs : List (ℤ × ℤ)) (lfts : List LeftoverRecord), 0 ≤ k →
      (∀ pr ∈ reqs, round2 pr.1 + k ≤ STANDARD_RAW_LENGTH_MM) →
      ∀ p ∈ multiPipes k reqs lfts,
        p.remaining = p.capacity - (p.cuts.sum + k * p.cuts.length) ∧ 0 ≤ p.remaining) ∧
    (∀ (k : ℤ) (reqs : List (ℤ × ℤ)) (lfts : List LeftoverRecord), 0 ≤ k →
      (∀ pr ∈ reqs, round2 pr.1 + k ≤ STANDARD_RAW_LENGTH_MM) →
      ∀ op ∈ (run_multi_size_plan_kerf k reqs lfts).pipes, 0 ≤ op.scrap) ∧
    (∀ (k : ℤ) (st : Store) (raw cut qty : ℤ),
      ∀ sg ∈ (run_cutting_plan_kerf k st raw cut qty).1.segments,
        sg.remaining = sg.source_length - ((sg.pieces : ℤ) * sg.cut_length + k * sg.pieces) ∧
        0 ≤ sg.remaining) ∧
    (∀ (k : ℤ) (pipes : List Pipe) (cut : ℤ) (i : ℕ) (ra : ℤ),
      chooseBest k pipes cut = some (i, ra) →
      ∃ p, pipes.get? i = some p ∧ cut + k ≤ p.remaining ∧ ra = p.remaining - (cut + k)) := by
  refine ⟨?_, ?_, ?_, ?_⟩
  · intro k reqs lfts hk h p hp
    have := multiPipes_inv hk h p hp
    exact ⟨this.1, this.2.1⟩
  · intro k reqs lfts hk h op hop
    unfold run_multi_size_plan_kerf at hop
    by_cases h1 : reqs.isEmpty
    · rw [if_pos h1] at hop
      exact absurd hop (List.not_mem_nil op)
    · rw [if_neg h1] at hop
      by_cases h2 : (flattenReqs reqs).isEmpty
      · rw [if_pos h2] at hop
        exact absurd hop (List.not_mem_nil op)
      · rw [if_neg h2] at hop
        have hop2 : op ∈ (enumIdx (multiPipes k reqs lfts)).map
            (fun ip => mkOutPipe k ip.1 ip.2) := hop
        rw [List.mem_map] at hop2
        obtain ⟨⟨i, p⟩, hip, rfl⟩ := hop2
        have hp : p ∈ multiPipes k reqs lfts := List.get?_mem (mem_enumIdx.mp hip)
        have := (multiPipes_inv hk h p hp).2.1
        show (0 : ℤ) ≤ round2 p.remaining
        simpa [round2] using this
  · intro k st raw cut qty sg hsg
    exact auxFuel_segments_inv _ k (get_leftovers_sorted st) raw cut qty sg hsg
  · intro k pipes cut i ra h
    exact chooseBest_some_spec h

/-- C1 witness: the amended theorem applied to a concrete two-cut run. -/
theorem c1_conservation_witness :
    (0 : ℤ) ≤ 300 ∧
    (∀ pr ∈ ([(100000, 2)] : List (ℤ × ℤ)),
      round2 pr.1 + 300 ≤ STANDARD_RAW_LENGTH_MM) ∧
    ((⟨159400, [100000, 100000], false, none, 360000⟩ : Pipe).remaining =
      (⟨159400, [100000, 100000], false, none, 360000⟩ : Pipe).capacity -
        ((⟨159400, [100000, 100000], false, none, 360000⟩ : Pipe).cuts.sum +
          300 * (⟨159400, [100000, 100000], false, none, 360000⟩ : Pipe).cuts.length) ∧
      (0 : ℤ) ≤ (⟨159400, [100000, 100000], false, none, 360000⟩ : Pipe).remaining) :=
  ⟨by decide, by decide,
    c1_conservation.1 300 [(100000, 2)] [] (by decide) (by decide)
      ⟨159400, [100000, 100000], false, none, 360000⟩ (by decide)⟩

/-- C1 counterexample: a requested cut of 3700 mm (370000 hundredths) cannot
fit any source, so a fresh raw pipe receives it unconditionally and reports
the negative remainder −103 mm; the claim's unconditional `remainder ≥ 0`
is false on the code. -/
theorem c1_negative_remainder_cx :
    (run_multi_size_plan [(370000, 1)] []).pipes.map (fun p => (p.scrap, p.num_cuts)) =
      [(-10300, 1)] ∧
    ¬ (∀ op ∈ (run_multi_size_plan [(370000, 1)] []).pipes, 0 ≤ op.scrap) := by decide

/-! ## Claim C2 -/

/-- C2, confirmed.  Whenever some leftover-sourced pipe can take the cut
(remaining ≥ cut + kerf), the placement chooses a leftover-sourced pipe —
the search list is restricted to leftover candidates — and no pipe is
opened (the pipe list keeps its length). -/
theorem c2_leftover_priority (k : ℤ) (pipes : List Pipe) (cut : ℤ)
    (h : ∃ p ∈ pipes, p.is_leftover = true ∧ cut + k ≤ p.remaining) :
    ∃ i p, pipes.get? i = some p ∧ p.is_leftover = true ∧
      chooseBest k pipes cut = some (i, p.remaining - (cut + k)) ∧
      (placeCut k pipes cut).length = pipes.length := by
  obtain ⟨i, p, hget, hlo, hcb⟩ := chooseBest_leftover h
  refine ⟨i, p, hget, hlo, hcb, ?_⟩
  rw [placeCut_some_eq hcb, List.length_map, enumIdx_length]

/-- C2 witness: a 1300 mm leftover takes a 1200 mm cut ahead of a fresh
3600 mm raw pipe. -/
theorem c2_leftover_priority_witness :
    (∃ p ∈ ([⟨130000, [], true, some 1, 130000⟩,
             ⟨360000, [], false, none, 360000⟩] : List Pipe),
      p.is_leftover = true ∧ (120000 : ℤ) + 300 ≤ p.remaining) ∧
    (∃ i p, ([⟨130000, [], true, some 1, 130000⟩,
              ⟨360000, [], false, none, 360000⟩] : List Pipe).get? i = some p ∧
      p.is_leftover = true ∧
      chooseBest 300 [⟨130000, [], true, some 1, 130000⟩,
                      ⟨360000, [], false, none, 360000⟩] 120000 =
        some (i, p.remaining - (120000 + 300)) ∧
      (placeCut 300 [⟨130000, [], true, some 1, 130000⟩,
                     ⟨360000, [], false, none, 360000⟩] 120000).length =
        ([⟨130000, [], true, some 1, 130000⟩,
          ⟨360000, [], false, none, 360000⟩] : List Pipe).length) :=
  ⟨⟨⟨130000, [], true, some 1, 130000⟩, by decide⟩,
    c2_leftover_priority 300 _ 120000
      ⟨⟨130000, [], true, some 1, 130000⟩, by decide⟩⟩

/-! ## Claim C3 -/

/-- C3, amended.  A new raw pipe is opened exactly when every existing pipe
is skipped: either it cannot physically take the cut, or it is a raw pipe
with at least one cut that the future-usability guard blocks (its remainder
is at or above the usability threshold and would fall below it).  In
particular the guard alone can force a new raw pipe to be opened while an
existing pipe could physically fit the cut — see the counterexample. -/
theorem c3_new_pipe_opening (k : ℤ) (pipes : List Pipe) (cut : ℤ) :
    (chooseBest k pipes cut = none ↔ ∀ p ∈ pipes, SkipPipe (cut + k) p) ∧
    (chooseBest k pipes cut = none → placeCut k pipes cut = pipes ++ [freshPipe k cut]) :=
  ⟨chooseBest_none_iff, fun h => placeCut_none_eq h⟩

/-- C3 witness: the amended theorem applied to a guard-blocked state. -/
theorem c3_new_pipe_opening_witness :
    placeCut 300 [⟨35400, [300000, 24000], false, none, 360000⟩] 24000 =
      [⟨35400, [300000, 24000], false, none, 360000⟩] ++ [freshPipe 300 24000] :=
  (c3_new_pipe_opening 300 [⟨35400, [300000, 24000], false, none, 360000⟩] 24000).2
    (by decide)

/-- C3 counterexample: after placing 3000 mm and one 240 mm cut, the single
raw pipe retains 354 mm ≥ 243 mm, yet the guard (354 ≥ 350, 354 − 243 < 350)
rejects it: the search returns `none` and the run opens a second raw pipe,
so the guard itself caused the opening while an existing pipe could
physically fit the cut. -/
theorem c3_guard_forces_new_pipe_cx :
    chooseBest KERF_MM [⟨35400, [300000, 24000], false, none, 360000⟩] 24000 = none ∧
    (24000 : ℤ) + KERF_MM ≤ (35400 : ℤ) ∧
    (run_multi_size_plan [(300000, 1), (24000, 2)] []).pipes.length = 2 := by decide

/-! ## Claim C4 -/

/-- C4, code bug.  The move-count search of the last-pipe fixup looks for a
prefix of removed cuts that brings the recomputed remainder *under* the
scrap limit, but removing cuts can only increase the remainder, so the
search never succeeds: on `3 × 1000 mm` the last pipe keeps its 3 cuts and
its 591 mm scrap (over the 75 mm limit, flag raised), and `move_count` is 0.
The emptied-pipe drop/retention rule the claim describes is unreachable. -/
theorem c4_fixup_never_moves :
    findMoveCount KERF_MM 360000 [100000, 100000, 100000] = 0 ∧
    (run_multi_size_plan [(100000, 3)] []).pipes.map (fun p => (p.num_cuts, p.scrap)) =
      [(3, 59100)] ∧
    (run_multi_size_plan [(100000, 3)] []).last_pipe_over_limit = true := by decide

/-! ## Claim C5 -/

lemma mem_foldl_delete {r : LeftoverRecord} :
    ∀ (ids : List ℕ) (st : Store), r ∈ st.rows → (∀ i ∈ ids, r.id ≠ i) →
      r ∈ (ids.foldl delete_leftover st).rows := by
  intro ids
  induction ids with
  | nil => intro st hr _; exact hr
  | cons i t ih =>
      intro st hr hne
      rw [List.foldl_cons]
      refine ih (delete_leftover st i) ?_ (fun j hj => hne j (List.mem_cons_of_mem _ hj))
      unfold delete_leftover
      exact List.mem_filter.mpr ⟨hr, decide_eq_true (hne i (List.mem_cons_self i t))⟩

lemma mem_foldl_insert {r : LeftoverRecord} :
    ∀ (ls : List ℤ) (st : Store), r ∈ st.rows → r ∈ (ls.foldl insert_leftover st).rows := by
  intro ls
  induction ls with
  | nil => intro st hr; exact hr
  | cons x t ih =>
      intro st hr
      rw [List.foldl_cons]
      refine ih (insert_leftover st x) ?_
      unfold insert_leftover
      exact List.mem_append_left _ hr

/-- C5, amended.  `run_cutting_plan` applies its inventory mutations itself,
before returning (deleting exactly the consumed leftover ids, then inserting
the saved scraps); every row whose id is not among the consumed ids — in
particular every leftover too short to fit a cut — survives in the store
unchanged. -/
theorem c5_untouched_rows (k : ℤ) (st : Store) (raw cut qty : ℤ) (r : LeftoverRecord)
    (hr : r ∈ st.rows)
    (hid : r.id ∉ (runCuttingPlanAux k (get_leftovers_sorted st) raw cut qty).2) :
    r ∈ (run_cutting_plan_kerf k st raw cut qty).2.rows := by
  show r ∈ ((runCuttingPlanAux k (get_leftovers_sorted st) raw cut qty).1.scrap_saved_list.foldl
      insert_leftover
      ((runCuttingPlanAux k (get_leftovers_sorted st) raw cut qty).2.foldl
        delete_leftover st)).rows
  refine mem_foldl_insert _ _ (mem_foldl_delete _ st hr ?_)
  intro i hi heq
  rw [heq] at hid
  exact hid hi

/-- C5 witness: a 300 mm leftover (too short for a 1200 mm cut) survives a
single-size run untouched. -/
theorem c5_untouched_rows_witness :
    (⟨5, 30000⟩ : LeftoverRecord) ∈
      (run_cutting_plan_kerf 300 ⟨[⟨5, 30000⟩], 6⟩ 500000 120000 1).2.rows :=
  c5_untouched_rows 300 ⟨[⟨5, 30000⟩], 6⟩ 500000 120000 1 ⟨5, 30000⟩
    (by decide) (by decide)

/-- C5 counterexample: `run_cutting_plan` itself changes the store before
returning — with one 1300 mm leftover and a request for one 1200 mm cut,
the store after the call no longer equals the store before it (the consumed
leftover was deleted inside the function, not by the caller). -/
theorem c5_mutates_store_cx :
    (run_cutting_plan ⟨[⟨1, 130000⟩], 2⟩ 500000 120000 1).2 ≠
      (⟨[⟨1, 130000⟩], 2⟩ : Store) := by decide

/-! ## Claim C6 -/

lemma flattenReqs_nil {reqs : List (ℤ × ℤ)}
    (h : ∀ pr ∈ reqs, pr.1 ≤ 0 ∨ pr.2 ≤ 0) : flattenReqs reqs = [] := by
  unfold flattenReqs
  have hfold : reqs.foldl (fun acc pr =>
      let L := round2 pr.1
      if L ≤ 0 ∨ pr.2 ≤ 0 then acc
      else acc ++ List.replicate pr.2.toNat L) [] = ([] : List ℤ) := by
    induction reqs with
    | nil => rfl
    | cons x t ih =>
        rw [List.foldl_cons, if_pos]
        · exact ih (fun pr hpr => h pr (List.mem_cons_of_mem _ hpr))
        · have := h x (List.mem_cons_self x t)
          simpa [round2] using this
  rw [hfold]
  rfl

lemma runCuttingPlanAuxFuel_early {fuel : ℕ} {k : ℤ} {lfts : List LeftoverRecord}
    {raw cut qty : ℤ} (h : round2 cut ≤ 0 ∨ qty ≤ 0) :
    runCuttingPlanAuxFuel fuel k lfts raw cut qty = (emptyCutResult, []) := by
  unfold runCuttingPlanAuxFuel
  rw [if_pos h]

/-- C6, confirmed.  Requirements whose cut lengths or quantities are all
non-positive (or an empty requirement set) give the empty multi-size plan,
on which the caller's mutation step leaves the store unchanged; a
non-positive cut length or quantity gives the empty single-size plan and
returns the store exactly as it was. -/
theorem c6_empty_inputs (reqs : List (ℤ × ℤ)) (lfts : List LeftoverRecord)
    (st st2 : Store) (raw cut qty : ℤ)
    (hreqs : ∀ pr ∈ reqs, pr.1 ≤ 0 ∨ pr.2 ≤ 0) (hsingle : cut ≤ 0 ∨ qty ≤ 0) :
    run_multi_size_plan reqs lfts = emptyMultiResult ∧
    applyMultiMutations st (run_multi_size_plan reqs lfts) = st ∧
    run_cutting_plan st2 raw cut qty = (emptyCutResult, st2) := by
  have hmulti : run_multi_size_plan reqs lfts = emptyMultiResult := by
    unfold run_multi_size_plan run_multi_size_plan_kerf
    by_cases hre : reqs.isEmpty
    · rw [if_pos hre]
    · rw [if_neg hre, if_pos (by rw [flattenReqs_nil hreqs]; rfl)]
  refine ⟨hmulti, ?_, ?_⟩
  · rw [hmulti]
    rfl
  · have hearly : round2 cut ≤ 0 ∨ qty ≤ 0 := by simpa [round2] using hsingle
    have haux : runCuttingPlanAux KERF_MM (get_leftovers_sorted st2) raw cut qty =
        (emptyCutResult, []) := runCuttingPlanAuxFuel_early hearly
    show ((runCuttingPlanAux KERF_MM (get_leftovers_sorted st2) raw cut qty).1,
      (runCuttingPlanAux KERF_MM (get_leftovers_sorted st2) raw cut qty).1.scrap_saved_list.foldl
        insert_leftover
        ((runCuttingPlanAux KERF_MM (get_leftovers_sorted st2) raw cut qty).2.foldl
          delete_leftover st2)) = (emptyCutResult, st2)
    rw [haux]
    rfl

/-- C6 witness: concrete degenerate inputs. -/
theorem c6_empty_inputs_witness :
    (∀ pr ∈ ([(-500, 3), (120000, 0)] : List (ℤ × ℤ)), pr.1 ≤ 0 ∨ pr.2 ≤ 0) ∧
    ((-5 : ℤ) ≤ 0 ∨ (3 : ℤ) ≤ 0) ∧
    (run_multi_size_plan [(-500, 3), (120000, 0)] [⟨1, 130000⟩] = emptyMultiResult ∧
     applyMultiMutations ⟨[⟨1, 130000⟩], 2⟩
        (run_multi_size_plan [(-500, 3), (120000, 0)] [⟨1, 130000⟩]) = ⟨[⟨1, 130000⟩], 2⟩ ∧
     run_cutting_plan ⟨[⟨1, 130000⟩], 2⟩ 500000 (-5) 3 =
        (emptyCutResult, ⟨[⟨1, 130000⟩], 2⟩)) :=
  ⟨by decide, by decide,
    c6_empty_inputs [(-500, 3), (120000, 0)] [⟨1, 130000⟩]
      ⟨[⟨1, 130000⟩], 2⟩ ⟨[⟨1, 130000⟩], 2⟩ 500000 (-5) 3 (by decide) (by decide)⟩

/-! ## Claim C7 -/

/-- C7, confirmed.  The single-size loop stabilises: any fuel at least the
measure of the initial state yields the same result as the measure itself
(so the `while` loop cannot run forever — it reaches a state satisfying its
exit condition within the measure's number of iterations), and the state the
algorithm finishes on satisfies the loop's exit condition.  This holds for
every input, including a raw length too short to fit a single cut. -/
theorem c7_loop_terminates (k : ℤ) (lfts : List LeftoverRecord)
    (raw cut qty : ℤ) (fuel : ℕ)
    (h : loopMeasure lfts (round2 cut) k
        (initState lfts (round2 raw) (round2 cut) k qty) ≤ fuel) :
    runCuttingPlanAuxFuel fuel k lfts raw cut qty =
      runCuttingPlanAux k lfts raw cut qty ∧
    LoopTerminal (round2 cut)
      (loopFuel lfts (round2 raw) (round2 cut) k
        (loopMeasure lfts (round2 cut) k
          (initState lfts (round2 raw) (round2 cut) k qty))
        (initState lfts (round2 raw) (round2 cut) k qty)) := by
  have hidx := initState_idx_le lfts (round2 raw) (round2 cut) k qty
  have hst := loop_stable lfts (round2 raw) (round2 cut) k fuel
    (initState lfts (round2 raw) (round2 cut) k qty) hidx h
  constructor
  · unfold runCuttingPlanAux runCuttingPlanAuxFuel
    by_cases hearly : round2 cut ≤ 0 ∨ qty ≤ 0
    · rw [if_pos hearly, if_pos hearly]
    · rw [if_neg hearly, if_neg hearly]
      simp only []
      rw [hst.1]
  · exact hst.2

/-- C7 witness: with a 1 m raw length, a 1.2 m cut (nothing ever fits) and
quantity 4, the loop result is already stable at fuel 100. -/
theorem c7_loop_terminates_witness :
    runCuttingPlanAuxFuel 100 KERF_MM [] 10000 120000 4 =
      runCuttingPlanAux KERF_MM [] 10000 120000 4 ∧
    LoopTerminal (round2 120000)
      (loopFuel [] (round2 10000) (round2 120000) KERF_MM
        (loopMeasure [] (round2 120000) KERF_MM
          (initState [] (round2 10000) (round2 120000) KERF_MM 4))
        (initState [] (round2 10000) (round2 120000) KERF_MM 4)) :=
  c7_loop_terminates KERF_MM [] 10000 120000 4 100 (by decide)

/-! ## Claim C8 -/

lemma multiMutations_snd :
    ∀ (l : List OutPipe) (acc : List ℕ × List ℤ),
      (l.foldl (fun acc p =>
        if idTruthy p.leftover_id = true ∧ 0 < p.num_cuts then
          (acc.1 ++ [p.leftover_id.getD 0],
           if SCRAP_SAVE_THRESHOLD_MM ≤ p.scrap then acc.2 ++ [p.scrap] else acc.2)
        else if idTruthy p.leftover_id = false ∧ SCRAP_SAVE_THRESHOLD_MM ≤ p.scrap then
          (acc.1, acc.2 ++ [p.scrap])
        else acc) acc).2 =
      acc.2 ++ ((l.filter (fun p => !(idTruthy p.leftover_id && decide (p.num_cuts = 0)))).map
        OutPipe.scrap).filter (fun s => decide (SCRAP_SAVE_THRESHOLD_MM ≤ s)) := by
  intro l
  induction l with
  | nil => intro acc; simp
  | cons p t ih =>
      intro acc
      rw [List.foldl_cons]
      by_cases htr : idTruthy p.leftover_id = true
      · by_cases hc : 0 < p.num_cuts
        · have hc0 : p.num_cuts ≠ 0 := by omega
          rw [if_pos ⟨htr, hc⟩, ih]
          by_cases hthr : SCRAP_SAVE_THRESHOLD_MM ≤ p.scrap
          · simp [List.filter_cons, htr, hc0, hthr]
          · simp [List.filter_cons, htr, hc0, hthr]
        · have hc0 : p.num_cuts = 0 := by omega
          rw [if_neg (fun h => hc h.2),
              if_neg (fun h => by rw [htr] at h; exact absurd h.1 (by simp)), ih]
          simp [List.filter_cons, htr, hc0]
      · have hfa : idTruthy p.leftover_id = false := by
          cases hb : idTruthy p.leftover_id
          · rfl
          · exact absurd hb htr
        rw [if_neg (fun h => htr h.1)]
        by_cases hthr : SCRAP_SAVE_THRESHOLD_MM ≤ p.scrap
        · rw [if_pos ⟨hfa, hthr⟩, ih]
          simp [List.filter_cons, hfa, hthr]
        · rw [if_neg (fun h => hthr h.2), ih]
          simp [List.filter_cons, hfa, hthr]

/-- C8, amended.  Threshold consistency holds for the single-size path: the
saved-scrap list is exactly the segment remainders at or above the save
threshold.  For the multi-size path, the caller queues for insertion
exactly the scraps at or above the threshold of pipes that are *not*
untouched leftovers; an untouched leftover pipe (consumed id present, zero
cuts) is skipped even when its scrap is at or above the threshold, because
its original record simply stays in the store — see the counterexample. -/
theorem c8_threshold_queueing :
    (∀ (k : ℤ) (st : Store) (raw cut qty : ℤ),
      (run_cutting_plan_kerf k st raw cut qty).1.scrap_saved_list =
        ((run_cutting_plan_kerf k st raw cut qty).1.segments.map Segment.remaining).filter
          (fun r => decide (SCRAP_SAVE_THRESHOLD_MM ≤ r))) ∧
    (∀ mr : MultiResult,
      (multiMutations mr).2 =
        ((mr.pipes.filter
            (fun p => !(idTruthy p.leftover_id && decide (p.num_cuts = 0)))).map
          OutPipe.scrap).filter (fun s => decide (SCRAP_SAVE_THRESHOLD_MM ≤ s))) := by
  constructor
  · intro k st raw cut qty
    exact auxFuel_scraps_eq _ k (get_leftovers_sorted st) raw cut qty
  · intro mr
    unfold multiMutations
    rw [multiMutations_snd]
    rfl

/-- C8 counterexample: a 500 mm leftover offered but never cut survives in
the plan with scrap 500 mm ≥ the 100 mm save threshold, yet it is not queued
for insertion (only the fresh raw pipe's 1597 mm scrap is), so "every
surviving pipe's scrap ≥ threshold is queued" fails as stated. -/
theorem c8_untouched_leftover_cx :
    (run_multi_size_plan [(200000, 1)] [⟨1, 50000⟩]).pipes.map
        (fun p => (p.scrap, p.num_cuts, p.is_leftover)) =
      [(50000, 0, true), (159700, 1, false)] ∧
    (multiMutations (run_multi_size_plan [(200000, 1)] [⟨1, 50000⟩])).2 = [159700] ∧
    (50000 : ℤ) ∉ (multiMutations (run_multi_size_plan [(200000, 1)] [⟨1, 50000⟩])).2 ∧
    SCRAP_SAVE_THRESHOLD_MM ≤ (50000 : ℤ) := by decide

/-! ## Claim C9 -/

/-- C9, amended.  Scenario A with the kerf parameter set to 0 as the spec's
baseline asks: one segment, 4 pieces, remainder 200 mm.  With the kerf the
code actually fixes (3 mm per cut), the same inputs give one segment,
4 pieces and remainder 188 mm.  All lengths in hundredths of a mm. -/
theorem c9_scenario_a :
    (run_cutting_plan_kerf 0 ⟨[], 1⟩ 500000 120000 4).1.pieces_produced = 4 ∧
    (run_cutting_plan_kerf 0 ⟨[], 1⟩ 500000 120000 4).1.segments.map
        (fun sg => (sg.pieces, sg.remaining)) = [(4, 20000)] ∧
    (run_cutting_plan ⟨[], 1⟩ 500000 120000 4).1.pieces_produced = 4 ∧
    (run_cutting_plan ⟨[], 1⟩ 500000 120000 4).1.segments.map
        (fun sg => (sg.pieces, sg.remaining)) = [(4, 18800)] := by decide

/-- C9 counterexample: with the code's fixed 3 mm kerf, the remainder of
Scenario A is 188 mm, not the 200 mm the claim states — the kerf cannot be
set to 0 through `run_cutting_plan`, whose kerf is the constant 3 mm. -/
theorem c9_kerf_cx :
    (run_cutting_plan ⟨[], 1⟩ 500000 120000 4).1.segments.map Segment.remaining =
      [18800] ∧
    KERF_MM = 300 ∧ (18800 : ℤ) ≠ 20000 := by decide

/-! ## Claim C10 -/

lemma nextSourceAux_all_small (raw needed : ℤ) :
    ∀ {l : List LeftoverRecord}, (∀ r ∈ l, r.length < needed) →
      nextSourceAux raw needed l =
        { length := raw, lid := none,
          label := "Raw pipe (" ++ fmt2 raw ++ " mm)", consumed := l.length } := by
  intro l
  induction l with
  | nil => intro _; rfl
  | cons r rest ih =>
      intro h
      unfold nextSourceAux
      rw [if_neg (not_le.mpr (h r (List.mem_cons_self r rest))),
        ih (fun x hx => h x (List.mem_cons_of_mem _ hx))]
      rfl

/-- C10, amended (the claim additionally needs `0 < raw`, see the
counterexample).  When the cut length and quantity are positive but the raw
length is positive and smaller than `cut + kerf`, and no stored leftover can
take a cut either: the run produces zero pieces yet records exactly one
zero-piece segment whose remainder is the full raw length, saves that
remainder exactly when it reaches the save threshold, and in that case
inserts the entire never-cut raw length into the store as a new leftover
(deleting nothing). -/
theorem c10_degenerate_raw (st : Store) (raw cut qty : ℤ)
    (hcut : 0 < cut) (hqty : 0 < qty) (hraw : 0 < raw)
    (hsmall : raw < cut + KERF_MM)
    (hlft : ∀ r ∈ st.rows, r.length < cut + KERF_MM) :
    (run_cutting_plan st raw cut qty).1.pieces_produced = 0 ∧
    (run_cutting_plan st raw cut qty).1.segments.map
        (fun sg => (sg.pieces, sg.source_length, sg.remaining)) = [(0, raw, raw)] ∧
    (run_cutting_plan st raw cut qty).1.scrap_saved_list =
      (if SCRAP_SAVE_THRESHOLD_MM ≤ raw then [raw] else []) ∧
    (run_cutting_plan st raw cut qty).2.rows =
      st.rows ++ (if SCRAP_SAVE_THRESHOLD_MM ≤ raw then [⟨st.next_id, raw⟩] else []) := by
  have hlft2 : ∀ r ∈ get_leftovers_sorted st, r.length < cut + KERF_MM := fun r hr =>
    hlft r ((List.perm_insertionSort byLengthDesc st.rows).mem_iff.mp hr)
  have hinit : initState (get_leftovers_sorted st) raw cut KERF_MM qty =
      { quantity := qty.toNat, idx := (get_leftovers_sorted st).length, available := raw,
        pieces := 0, src_init := raw,
        src_label := "Raw pipe (" ++ fmt2 raw ++ " mm)", src_id := none,
        segments := [], scraps := [], used_ids := [], used_leftover := false,
        done := false } := by
    unfold initState
    rw [nextSourceAux_all_small raw (cut + KERF_MM) hlft2]
  have hnt : ¬ LoopTerminal cut
      ({ quantity := qty.toNat, idx := (get_leftovers_sorted st).length, available := raw,
         pieces := 0, src_init := raw,
         src_label := "Raw pipe (" ++ fmt2 raw ++ " mm)", src_id := none,
         segments := [], scraps := [], used_ids := [], used_leftover := false,
         done := false } : LoopState) := by
    unfold LoopTerminal
    push_neg
    refine ⟨by simp, ?_, by omega⟩
    show qty.toNat ≠ 0
    omega
  have hM : loopMeasure (get_leftovers_sorted st) cut KERF_MM
      ({ quantity := qty.toNat, idx := (get_leftovers_sorted st).length, available := raw,
         pieces := 0, src_init := raw,
         src_label := "Raw pipe (" ++ fmt2 raw ++ " mm)", src_id := none,
         segments := [], scraps := [], used_ids := [], used_leftover := false,
         done := false } : LoopState) = 2 * qty.toNat + 1 := by
    rw [loopMeasure_eq_of_not_terminal hnt]
    simp only []
    rw [Nat.sub_self, if_pos hsmall]
  have hstep : stepF (get_leftovers_sorted st) raw cut KERF_MM
      ({ quantity := qty.toNat, idx := (get_leftovers_sorted st).length, available := raw,
         pieces := 0, src_init := raw,
         src_label := "Raw pipe (" ++ fmt2 raw ++ " mm)", src_id := none,
         segments := [], scraps := [], used_ids := [], used_leftover := false,
         done := false } : LoopState) =
      { quantity := qty.toNat, idx := (get_leftovers_sorted st).length, available := raw,
        pieces := 0, src_init := raw,
        src_label := "Raw pipe (" ++ fmt2 raw ++ " mm)", src_id := none,
        segments := [{ source := "Raw pipe (" ++ fmt2 raw ++ " mm)", source_length := raw,
                       pieces := 0, cut_length := cut, remaining := raw }],
        scraps := if SCRAP_SAVE_THRESHOLD_MM ≤ raw then [raw] else [],
        used_ids := [], used_leftover := false, done := true } := by
    unfold stepF
    rw [if_neg (show ¬ (cut + KERF_MM ≤ raw) from not_le.mpr hsmall), closeAdvance_eq]
    simp only [round2]
    rw [List.drop_length]
    simp only [nextSourceAux]
    rw [if_pos (Or.inr hraw), Nat.add_zero]
    have h2 : decide (0 < qty.toNat) = true := decide_eq_true (by omega)
    have h3 : decide (raw < cut + KERF_MM) = true := decide_eq_true hsmall
    rw [h2, h3]
    rfl
  have hfin : finishPlan cut
      (loopFuel (get_leftovers_sorted st) raw cut KERF_MM
        (loopMeasure (get_leftovers_sorted st) cut KERF_MM
          (initState (get_leftovers_sorted st) raw cut KERF_MM qty))
        (initState (get_leftovers_sorted st) raw cut KERF_MM qty)) =
      { quantity := qty.toNat, idx := (get_leftovers_sorted st).length, available := raw,
        pieces := 0, src_init := raw,
        src_label := "Raw pipe (" ++ fmt2 raw ++ " mm)", src_id := none,
        segments := [{ source := "Raw pipe (" ++ fmt2 raw ++ " mm)", source_length := raw,
                       pieces := 0, cut_length := cut, remaining := raw }],
        scraps := if SCRAP_SAVE_THRESHOLD_MM ≤ raw then [raw] else [],
        used_ids := [], used_leftover := false, done := true } := by
    rw [hinit, hM, loopFuel_succ, if_neg hnt, hstep]
    rw [loopFuel_terminal (Or.inl rfl) (2 * qty.toNat)]
    rw [finishPlan_eq, if_neg (show ¬ (qty.toNat = 0) by omega)]
  have hne : ¬ (round2 cut ≤ 0 ∨ qty ≤ 0) := by
    simp only [round2]
    omega
  have haux : runCuttingPlanAux KERF_MM (get_leftovers_sorted st) raw cut qty =
      ({ pieces_produced := 0,
         material_used := 0,
         material_used_incl_kerf := 0,
         kerf_total_mm := 0,
         scrap_saved_list := if SCRAP_SAVE_THRESHOLD_MM ≤ raw then [raw] else [],
         used_leftover := false,
         segments := [{ source := "Raw pipe (" ++ fmt2 raw ++ " mm)", source_length := raw,
                        pieces := 0, cut_length := cut, remaining := raw }],
         suggested_raw :=
           if strStartsWith ("Raw pipe (" ++ fmt2 raw ++ " mm)") "Raw pipe" = true ∧ 0 < raw
           then some raw else none }, []) := by
    unfold runCuttingPlanAux runCuttingPlanAuxFuel
    simp only [round2]
    rw [if_neg (by simpa [round2] using hne)]
    simp only [hfin]
    simp [List.getLast?_singleton]
  refine ⟨?_, ?_, ?_, ?_⟩
  · show (runCuttingPlanAux KERF_MM (get_leftovers_sorted st) raw cut qty).1.pieces_produced = 0
    rw [haux]
  · show (runCuttingPlanAux KERF_MM (get_leftovers_sorted st) raw cut qty).1.segments.map
        (fun sg => (sg.pieces, sg.source_length, sg.remaining)) = [(0, raw, raw)]
    rw [haux]
    simp
  · show (runCuttingPlanAux KERF_MM (get_leftovers_sorted st) raw cut qty).1.scrap_saved_list =
      (if SCRAP_SAVE_THRESHOLD_MM ≤ raw then [raw] else [])
    rw [haux]
  · show ((runCuttingPlanAux KERF_MM (get_leftovers_sorted st) raw cut
        qty).1.scrap_saved_list.foldl insert_leftover
        ((runCuttingPlanAux KERF_MM (get_leftovers_sorted st) raw cut qty).2.foldl
          delete_leftover st)).rows =
      st.rows ++ (if SCRAP_SAVE_THRESHOLD_MM ≤ raw then [⟨st.next_id, raw⟩] else [])
    rw [haux]
    by_cases hthr : SCRAP_SAVE_THRESHOLD_MM ≤ raw
    · rw [if_pos hthr, if_pos hthr]
      rfl
    · rw [if_neg hthr, if_neg hthr]
      simp

/-- C10 witness: a 150 mm raw length with a 1200 mm cut request and one
50 mm leftover in store — one zero-piece segment of remainder 150 mm, saved
(150 ≥ 100) and inserted as a fresh leftover row. -/
theorem c10_degenerate_raw_witness :
    (run_cutting_plan ⟨[⟨1, 5000⟩], 2⟩ 15000 120000 2).1.pieces_produced = 0 ∧
    (run_cutting_plan ⟨[⟨1, 5000⟩], 2⟩ 15000 120000 2).1.segments.map
        (fun sg => (sg.pieces, sg.source_length, sg.remaining)) = [(0, 15000, 15000)] ∧
    (run_cutting_plan ⟨[⟨1, 5000⟩], 2⟩ 15000 120000 2).1.scrap_saved_list =
      (if SCRAP_SAVE_THRESHOLD_MM ≤ (15000 : ℤ) then [(15000 : ℤ)] else []) ∧
    (run_cutting_plan ⟨[⟨1, 5000⟩], 2⟩ 15000 120000 2).2.rows =
      [⟨1, 5000⟩] ++ (if SCRAP_SAVE_THRESHOLD_MM ≤ (15000 : ℤ) then [⟨2, 15000⟩] else []) :=
  c10_degenerate_raw ⟨[⟨1, 5000⟩], 2⟩ 15000 120000 2
    (by decide) (by decide) (by decide) (by decide) (by decide)

/-- C10 counterexample: at raw length 0 (still smaller than `cut + kerf`,
with positive cut and quantity and no leftovers) the run records *no*
segment at all, against the claim's unconditional "still records one
zero-piece segment". -/
theorem c10_zero_raw_cx :
    (run_cutting_plan ⟨[], 1⟩ 0 120000 4).1.segments = [] ∧
    (0 : ℤ) < 120000 ∧ (0 : ℤ) < 4 ∧ (0 : ℤ) < 120000 + KERF_MM := by decide

end Samruddhi
